import Mathlib

/-!
# fit_gaugino.C : piecewise exponential fits of electroweak SUSY cross-sections

A shallow embedding of `src/fit_gaugino.C`.

Conventions of the embedding
* A C++ `double` is an element of a linearly ordered field `K` (exact arithmetic, no
  rounding, no overflow).  The one place where IEEE arithmetic leaves the finite numbers
  in this program, a division whose divisor is zero, is kept visible: `fdiv` returns
  `none` there, and `none` stands for the non-finite result (an infinity or a NaN).
* A C++ `int` is an `Int`, an `unsigned int` loop counter is a `Nat`.
* A stack array `double a[77]` is a map `Nat → K` initialised to zero.  The loader is the
  only code whose index depends on the input; a store at an index of 77 or more lies
  outside the C++ array, so the statements on what the loader stores are for at most 77
  records.
* The input stream is a list of characters with the state bits `eofbit` and `failbit`;
  a number read from the text is the exact decimal it denotes.
* ROOT's minimiser is not part of the repository: the fitted `TF1` objects enter as
  their evaluation maps `funcs j : K → K` (`TF1::Eval`).
-/

namespace FitGaugino

/-! ## Loops -/

/-- Counted loop `for (unsigned int i = 0; i < n; ++i) body`, as a state transformer. -/
def forLoop {S : Type} (n : Nat) (body : Nat → S → S) (s : S) : S :=
  (List.range n).foldl (fun st i => body i st) s

/-! ## Fit windows (lines 136-140) -/

/-- Line 136 : `int nFits = 10;` -/
def nFits : Nat := 10

/-- Line 139 : the initialiser of `int fitBorders[11]`. -/
def standardBorders : List Int :=
  [100, 150, 200, 300, 400, 600, 800, 1000, 1200, 1500, 2000]

/-- Lines 139-140 : the boundary array after the optional `SlepSlep` overwrite
`for (i = 0; i < 10; i++) fitBorders[i] = 50.*(i+1);`. -/
def fitBorders (grid : String) : List Int :=
  if grid = "SlepSlep" then
    forLoop 10 (fun i b => b.set i (50 * ((i : Int) + 1))) standardBorders
  else standardBorders

/-- Array read `fitBorders[j]`. -/
def border (b : List Int) (j : Nat) : Int := b.getD j 0

/-- Lines 147, 156, 166 : the range `(fitBorders[i], fitBorders[i+1])` given to the three
function objects of window `i`. -/
def windowRange (b : List Int) (i : Nat) : Int × Int := (border b i, border b (i + 1))

section Field

variable {K : Type} [LinearOrderedField K]

/-- Lines 189 and 215 : the half-open test `mass>=fitBorders[j]&&mass<fitBorders[j+1]`. -/
def inWindow (b : List Int) (j : Nat) (mass : K) : Bool :=
  decide ((border b j : K) ≤ mass) && decide (mass < (border b (j + 1) : K))

/-- Line 257 : the inclusive test `mass>=fitBorders[j]&&mass<=fitBorders[j+1]`. -/
def inWindowIncl (b : List Int) (j : Nat) (mass : K) : Bool :=
  decide ((border b j : K) ≤ mass) && decide (mass ≤ (border b (j + 1) : K))

/-! ## Arithmetic helpers -/

/-- Division of two doubles; `none` is the non-finite result of a zero divisor. -/
def fdiv (a b : K) : Option K := if b = 0 then none else some (a / b)

/-- Product of a finite double with the result of a division. -/
def fmul (a : K) (q : Option K) : Option K := q.map (fun r => a * r)

/-! ## The fit function (lines 10-14) -/

/-- Lines 11-14 : `expoFunc`, `exp(par[0] + par[1]*v[0] + par[2]*log(v[0]))`; `TMath::Exp`
and `TMath::Log` are the parameters `exp` and `log`, and `v` is `v[0]`.  Nothing is
assumed of them here : the exponential of the doubles, which returns zero when it
underflows, is one admissible `exp`, the real exponential is another. -/
def expoFunc (exp log : K → K) (v : K) (par : Fin 3 → K) : K :=
  exp (par 0 + par 1 * v + par 2 * log v)

/-- `TF1::Eval` of a function object built on `expoFunc` (lines 147, 156, 166) whose three
parameters are `par`. -/
def evalTF1 (exp log : K → K) (par : Fin 3 → K) (x : K) : K :=
  expoFunc exp log x par

/-! ## Envelope (lines 190-193 and 258-260) -/

/-- Lines 190-192 : `var1 > var2 ? var1 : var2` for the three curves of one window. -/
def envelope (up nom dn : K → K) (mass : K) : K :=
  let var1 := up mass - nom mass
  let var2 := nom mass - dn mass
  if var1 > var2 then var1 else var2

/-- The four arrays of the ratio band, lines 182-185. -/
structure Band (K : Type) where
  rx : Nat → K
  rxe : Nat → K
  ry : Nat → K
  rye : Nat → Option K

/-- Lines 182-185 : the zero-initialised band arrays. -/
def Band.zero : Band K :=
  { rx := fun _ => 0, rxe := fun _ => 0, ry := fun _ => 0, rye := fun _ => some 0 }

/-- Lines 188-195 : the inner loop over the windows for one fine-grid mass. -/
def bandInner (b : List Int) (fUp fNom fDn : Nat → K → K) (i : Nat) (mass : K)
    (rye : Nat → Option K) : Nat → Option K :=
  forLoop nFits (fun j r =>
    if inWindow b j mass then
      Function.update r i (fdiv (envelope (fUp j) (fNom j) (fDn j) mass) (fNom j mass))
    else r) rye

/-- Lines 187-198 : the body of the fine-grid loop. -/
def bandBody (b : List Int) (fUp fNom fDn : Nat → K → K) (i : Nat) (s : Band K) : Band K :=
  let mass : K := 100 + (i : K) * 10
  { rx := Function.update s.rx i mass
    rxe := Function.update s.rxe i 10
    ry := Function.update s.ry i 1
    rye := bandInner b fUp fNom fDn i mass s.rye }

/-- Lines 182-200 : the ratio band on the 190 fine-grid masses. -/
def fitBand (grid : String) (fUp fNom fDn : Nat → K → K) : Band K :=
  forLoop 190 (bandBody (fitBorders grid) fUp fNom fDn) Band.zero

/-! ## Uncertainty expansion (lines 62-87) -/

/-- Lines 62-69 : the eight arrays of `fit_gaugino`.  `yeUp` and `yeDn` hold the results
of divisions, hence `Option K`. -/
structure Tables (K : Type) where
  x : Nat → K
  xe : Nat → K
  y : Nat → K
  ye : Nat → K
  yUp : Nat → K
  yeUp : Nat → Option K
  yDn : Nat → K
  yeDn : Nat → Option K

/-- Lines 62-69 : every array is initialised with `{0.}`. -/
def Tables.zero : Tables K :=
  { x := fun _ => 0, xe := fun _ => 0, y := fun _ => 0, ye := fun _ => 0
    yUp := fun _ => 0, yeUp := fun _ => some 0, yDn := fun _ => 0, yeDn := fun _ => some 0 }

/-- Lines 77-78 : `int nPoints = 77; if(grid.EqualTo("SlepSlep")) nPoints = 10;` -/
def nPoints (grid : String) : Nat := if grid = "SlepSlep" then 10 else 77

/-- Lines 80-86 : the body of the expansion loop for sample `i`. -/
def expandBody (grid : String) (i : Nat) (t : Tables K) : Tables K :=
  let ye := if grid = "SlepSlep" then Function.update t.ye i (t.ye i * t.y i) else t.ye
  let yUp := Function.update t.yUp i (t.y i + ye i)
  let yeUp := Function.update t.yeUp i (fmul (yUp i) (fdiv (ye i) (t.y i)))
  let yDn := Function.update t.yDn i (t.y i - ye i)
  let yeDn := Function.update t.yeDn i (fmul (yDn i) (fdiv (ye i) (t.y i)))
  { t with ye := ye, yUp := yUp, yeUp := yeUp, yDn := yDn, yeDn := yeDn }

/-- The absolute uncertainty of sample `i` : the tabulated one, times the nominal value
for grid `SlepSlep` (line 80). -/
def absUnc (grid : String) (t : Tables K) (i : Nat) : K :=
  if grid = "SlepSlep" then t.ye i * t.y i else t.ye i

/-- Lines 77-87 : the expansion loop over the `nPoints` samples. -/
def expandUncertainties (grid : String) (t : Tables K) : Tables K :=
  forLoop (nPoints grid) (expandBody grid) t

/-! ## Ratio markers (lines 209-222) -/

/-- Lines 213-218 : `fitXsec`, initialised to `-1.` and overwritten by the nominal fit of
every window that passes the half-open test. -/
def ratioFitXsec (b : List Int) (fNom : Nat → K → K) (original_x : K) : K :=
  forLoop nFits (fun j fitXsec =>
    if inWindow b j original_x then fNom j original_x else fitXsec) (-1)

/-- A point of the `ratio` graph with its errors. -/
structure RatioPoint (K : Type) where
  px : K
  py : Option K
  ex : K
  ey : Option K

/-- Lines 211-220 : point `i` of the ratio graph, from the nominal graph
`(x, y, xe, ye)`. -/
def ratioPoint (grid : String) (fNom : Nat → K → K) (t : Tables K) (i : Nat) :
    RatioPoint K :=
  let original_x := t.x i
  let original_y := t.y i
  let fitXsec := ratioFitXsec (fitBorders grid) fNom original_x
  { px := original_x, py := fdiv original_y fitXsec, ex := 0, ey := fdiv (t.ye i) fitXsec }

/-! ## Reporter (lines 253-272) -/

/-- The seven numbers of one printed row, lines 261-267. -/
structure Row (K : Type) where
  mass : K
  xsec : K
  fitted : K
  xsecDiff : Option K
  unc : K
  fittedUnc : K
  uncDiff : Option K

/-- Lines 258-267 : the row printed for sample `i` from the curves of window `j`. -/
def reportRow (fUp fNom fDn : Nat → K → K) (t : Tables K) (i j : Nat) : Row K :=
  let mass := t.x i
  let uncertainty := envelope (fUp j) (fNom j) (fDn j) mass
  { mass := t.x i
    xsec := t.y i
    fitted := fNom j mass
    xsecDiff := (fdiv (fNom j mass - t.y i) (t.y i)).map (fun r => r * 100)
    unc := t.ye i
    fittedUnc := uncertainty
    uncDiff := (fdiv (uncertainty - t.ye i) (t.ye i)).map (fun r => r * 100) }

/-- Lines 256-270 : the inner loop leaves at the first window that passes the inclusive
test (`break`); `none` when no window passes it. -/
def reportWindow (b : List Int) (mass : K) : Option Nat :=
  (List.range nFits).find? (fun j => inWindowIncl b j mass)

/-- Lines 254-271 : the body of the reporter loop appends at most one output line : none
for a mass below `1.e-3` (`continue`), else the row of the first matching window
followed by the line end, or the bare line end (`none`) when no window matches. -/
def reportBody (grid : String) (fUp fNom fDn : Nat → K → K) (t : Tables K) (i : Nat)
    (out : List (Option (Row K))) : List (Option (Row K)) :=
  let mass := t.x i
  if mass < 1 / 1000 then out
  else out ++ [(reportWindow (fitBorders grid) mass).map (reportRow fUp fNom fDn t i)]

/-- Lines 253-272 : the lines of the printed table. -/
def report (grid : String) (fUp fNom fDn : Nat → K → K) (t : Tables K) :
    List (Option (Row K)) :=
  forLoop (nPoints grid) (reportBody grid fUp fNom fDn t) []

end Field

/-! ## Loader (lines 21-54) -/

/-- An `ifstream` : the unread characters and the two state bits the loader depends on. -/
structure IStream where
  buf : List Char
  eofbit : Bool
  failbit : Bool

/-- The test `in.good()` : no state bit is set. -/
def IStream.good (s : IStream) : Bool := !s.eofbit && !s.failbit

/-- Lines 42-43 : `ifstream in; in.open(path)`; `none` is a file that cannot be opened,
which sets `failbit`. -/
def openFile (file : Option (List Char)) : IStream :=
  match file with
  | some cs => { buf := cs, eofbit := false, failbit := false }
  | none => { buf := [], eofbit := false, failbit := true }

/-- The white space of the classic locale, skipped before a formatted extraction. -/
def isSpace (c : Char) : Bool :=
  c = ' ' || c = '\t' || c = '\n' || c = '\x0b' || c = '\x0c' || c = '\r'

/-- Skip leading white space. -/
def skipWs : List Char → List Char
  | [] => []
  | c :: cs => if isSpace c then skipWs cs else c :: cs

/-- An optional sign; `true` for a minus. -/
def scanSign : List Char → Bool × List Char
  | '-' :: cs => (true, cs)
  | '+' :: cs => (false, cs)
  | cs => (false, cs)

/-- The longest run of decimal digits and what follows it. -/
def scanDigits : List Char → List Char × List Char
  | [] => ([], [])
  | c :: cs =>
    if c.isDigit then (c :: (scanDigits cs).1, (scanDigits cs).2) else ([], c :: cs)

/-- The number written by a run of decimal digits. -/
def digitsValue (ds : List Char) : Nat :=
  ds.foldl (fun n c => 10 * n + (c.toNat - 48)) 0

/-- An optional fraction : a point and the digits after it. -/
def scanFraction : List Char → List Char × List Char
  | '.' :: cs => scanDigits cs
  | cs => ([], cs)

/-- The decimal number written by a numeric field : sign, the digits of the integer and
fraction parts read as one number, the count of fraction digits, the exponent. -/
structure Decimal where
  neg : Bool
  mant : Nat
  scale : Nat
  expNeg : Bool
  exp : Nat
deriving DecidableEq

/-- The value of a decimal number (the double nearest to it, in the program). -/
def Decimal.toRat (d : Decimal) : ℚ :=
  let m : ℚ := (d.mant : ℚ) / 10 ^ d.scale
  let v : ℚ := if d.expNeg then m / 10 ^ d.exp else m * 10 ^ d.exp
  if d.neg then -v else v

/-- An optional exponent : sign and value, and what follows; an `e` without digits makes
the field invalid (`none`). -/
def scanExponent : List Char → Option (Bool × Nat) × List Char
  | [] => (some (false, 0), [])
  | c :: cs =>
    if c = 'e' || c = 'E' then
      let sg := scanSign cs
      let ds := scanDigits sg.2
      if ds.1.isEmpty then (none, ds.2) else (some (sg.1, digitsValue ds.1), ds.2)
    else (some (false, 0), c :: cs)

/-- The numeric field read by `operator>>(double&)` : sign, digits, fraction, exponent.
Returns the number, `none` for an invalid field, and the unread characters. -/
def scanDouble (cs : List Char) : Option Decimal × List Char :=
  let sg := scanSign cs
  let ip := scanDigits sg.2
  let fp := scanFraction ip.2
  if ip.1.isEmpty && fp.1.isEmpty then (none, fp.2)
  else
    let ex := scanExponent fp.2
    (ex.1.map (fun e =>
      { neg := sg.1, mant := digitsValue (ip.1 ++ fp.1), scale := fp.1.length
        expNeg := e.1, exp := e.2 }), ex.2)

/-- Line 47 : one `in >> v`.  A stream that is not good only gets `failbit`; white space
is skipped, and the end of input there sets `eofbit` and `failbit`; a field that runs to
the end of input sets `eofbit`; an invalid field sets `failbit` and stores zero. -/
def extractDouble (s : IStream) (v : ℚ) : IStream × ℚ :=
  if !s.good then ({ s with failbit := true }, v)
  else
    match skipWs s.buf with
    | [] => ({ buf := [], eofbit := true, failbit := true }, v)
    | c :: cs =>
      match scanDouble (c :: cs) with
      | (some d, rest) =>
        ({ buf := rest, eofbit := rest.isEmpty, failbit := false }, d.toRat)
      | (none, rest) => ({ buf := rest, eofbit := rest.isEmpty, failbit := true }, 0)

/-- Lines 44-51 : the `while(true)` loop with its locals `index`, `a`, `b`, `c`.  Every
round that does not leave the loop consumes input, so `fuel` above the number of unread
characters is never used up (`loadLoop_fuel`). -/
def loadLoop : Nat → IStream → Nat → ℚ → ℚ → ℚ → Tables ℚ → Tables ℚ
  | 0, _, _, _, _, _, t => t
  | fuel + 1, s, index, a, b, c, t =>
    let ra := extractDouble s a
    let rb := extractDouble ra.1 b
    let rc := extractDouble rb.1 c
    if !rc.1.good then t
    else
      loadLoop fuel rc.1 (index + 1) ra.2 rb.2 rc.2
        { t with x := Function.update t.x index ra.2
                 y := Function.update t.y index rb.2
                 ye := Function.update t.ye index rc.2 }

/-- Lines 26-40 : the value of the local `found` after the three tests. -/
def found (grid comp : String) : Bool :=
  let found0 := false
  let found1 :=
    if (grid = "C1N2" || grid = "C1pN2" || grid = "C1mN2" || grid = "C1C1") &&
        (comp = "wino" || comp = "hino") then true else found0
  let found2 := if (grid = "N1N2" || grid = "CN") && comp = "hino" then true else found1
  let found3 :=
    if grid = "SlepSlep" && (comp = "left" || comp = "right") then true else found2
  found3

/-- Line 43 : `Form("Inputs/xsec_%s_%s.txt", grid, comp)`. -/
def inputPath (grid comp : String) : String :=
  "Inputs/xsec_" ++ grid ++ "_" ++ comp ++ ".txt"

/-- Lines 21-54 : `load_cross_sections`; `fs` gives the content of the file at a path. -/
def load_cross_sections (fs : String → Option String) (grid comp : String) (t : Tables ℚ) :
    Bool × Tables ℚ :=
  let s := openFile ((fs (inputPath grid comp)).map String.toList)
  (found grid comp, if found grid comp then loadLoop (s.buf.length + 1) s 0 0 0 0 t else t)

/-- Lines 62-87 : the start of `fit_gaugino`, up to the end of the expansion loop; `none`
is the early `return` of line 74. -/
def fit_gaugino_tables (fs : String → Option String) (grid comp : String) :
    Option (Tables ℚ) :=
  let r := load_cross_sections fs grid comp Tables.zero
  if !r.1 then none else some (expandUncertainties grid r.2)

/-! ## Data of the examples and notions of the statements -/

/-- A one-sample table for grid `SlepSlep` : cross-section 2, fractional uncertainty 1/2. -/
def slepSample : Tables ℚ :=
  { (Tables.zero : Tables ℚ) with y := fun _ => 2, ye := fun _ => 1 / 2 }

/-- A table whose cross-sections are negative : value -1, fractional uncertainty 1/2. -/
def negativeSample : Tables ℚ :=
  { (Tables.zero : Tables ℚ) with y := fun _ => -1, ye := fun _ => 1 / 2 }

/-- A table whose samples sit on the boundary 150 : cross-section 4, uncertainty 1. -/
def boundarySample : Tables ℚ :=
  { (Tables.zero : Tables ℚ) with x := fun _ => 150, y := fun _ => 4, ye := fun _ => 1 }

/-- An exponential on the rationals that, like the one on doubles, returns zero for a
very negative argument (and one elsewhere : only its sign and its zero matter here). -/
def underflowExp (x : ℚ) : ℚ := if x < -700 then 0 else 1

/-- A file system holding one input table, for `C1N2`/`wino`. -/
def oneFile (content : String) : String → Option String :=
  fun path => if path = "Inputs/xsec_C1N2_wino.txt" then some content else none

/-- A valid numeric field at the head of `cs` : after the white space, the number `d`
is read and `rest` is left. -/
def validField (cs : List Char) (d : Decimal) (rest : List Char) : Prop :=
  scanDouble (skipWs cs) = (some d, rest)

/-- The text `cs` starts with the complete records `recs` and goes on with `tail` : each
record is three valid fields, the third one followed by at least one character. -/
def holdsRecords : List Char → List (Decimal × Decimal × Decimal) → List Char → Bool
  | cs, [], tail => decide (cs = tail)
  | cs, r :: recs, tail =>
    let f1 := scanDouble (skipWs cs)
    let f2 := scanDouble (skipWs f1.2)
    let f3 := scanDouble (skipWs f2.2)
    decide (f1.1 = some r.1) && decide (f2.1 = some r.2.1) && decide (f3.1 = some r.2.2) &&
      !f3.2.isEmpty && holdsRecords f3.2 recs tail

/-- One more round of the loop on `tail` leaves the loop : the stream is not good after
three extractions. -/
def endsInput (tail : List Char) : Bool :=
  !(extractDouble (extractDouble (extractDouble ⟨tail, false, false⟩ 0).1 0).1 0).1.good

/-- Section 4.1 of the specification : the whitelist of (grid, composition) pairs. -/
def specWhitelist (grid comp : String) : Prop :=
  (grid ∈ ["C1N2", "C1pN2", "C1mN2", "C1C1"] ∧ comp ∈ ["wino", "hino"]) ∨
  (grid ∈ ["N1N2", "CN"] ∧ comp = "hino") ∨
  (grid = "SlepSlep" ∧ comp ∈ ["left", "right"])

/-! ## Facts about the loops and the windows -/

theorem forLoop_zero {S : Type} (body : Nat → S → S) (s : S) : forLoop 0 body s = s := rfl

theorem forLoop_succ {S : Type} (n : Nat) (body : Nat → S → S) (s : S) :
    forLoop (n + 1) body s = body n (forLoop n body s) := by
  simp [forLoop, List.range_succ]

theorem fitBorders_standard (grid : String) (h : grid ≠ "SlepSlep") :
    fitBorders grid = [100, 150, 200, 300, 400, 600, 800, 1000, 1200, 1500, 2000] := by
  simp [fitBorders, h, standardBorders]

theorem fitBorders_slep :
    fitBorders "SlepSlep" = [50, 100, 150, 200, 250, 300, 350, 400, 450, 500, 2000] := by
  decide

section Partition

variable {K : Type} [LinearOrderedField K]

theorem inWindow_iff (b : List Int) (j : Nat) (m : K) :
    inWindow b j m = true ↔ (border b j : K) ≤ m ∧ m < (border b (j + 1) : K) := by
  simp [inWindow]

theorem inWindowIncl_iff (b : List Int) (j : Nat) (m : K) :
    inWindowIncl b j m = true ↔ (border b j : K) ≤ m ∧ m ≤ (border b (j + 1) : K) := by
  simp [inWindowIncl]

/-- A step-wise increasing sequence is monotone on its initial segment. -/
theorem steps_mono (f : Nat → K) (n : Nat) (hstep : ∀ j, j < n → f j < f (j + 1)) :
    ∀ i k, i ≤ k → k ≤ n → f i ≤ f k := by
  intro i k hik
  induction k with
  | zero =>
    intro _
    have : i = 0 := by omega
    subst this
    exact le_refl _
  | succ k ih =>
    intro hk
    rcases Nat.eq_or_lt_of_le hik with h | h
    · subst h
      exact le_refl _
    · have h1 : f i ≤ f k := ih (by omega) (by omega)
      exact le_trans h1 (le_of_lt (hstep k (by omega)))

/-- Existence of an owning half-open cell for a point inside the covered range. -/
theorem cell_exists (f : Nat → K) (n : Nat) (m : K) (h0 : f 0 ≤ m) (hn : m < f n) :
    ∃ j, j < n ∧ f j ≤ m ∧ m < f (j + 1) := by
  induction n with
  | zero => exact absurd hn (not_lt.mpr h0)
  | succ n ih =>
    by_cases h : m < f n
    · obtain ⟨j, hj, h1, h2⟩ := ih h
      exact ⟨j, by omega, h1, h2⟩
    · exact ⟨n, by omega, not_lt.mp h, hn⟩

/-- Two half-open cells of an increasing sequence holding the same point coincide. -/
theorem cell_unique (f : Nat → K) (n : Nat) (hstep : ∀ j, j < n → f j < f (j + 1))
    (m : K) (j k : Nat) (hj : j < n) (hk : k < n)
    (hj1 : f j ≤ m) (hj2 : m < f (j + 1)) (hk1 : f k ≤ m) (hk2 : m < f (k + 1)) : j = k := by
  rcases Nat.lt_trichotomy j k with h | h | h
  · have := steps_mono f n hstep (j + 1) k (by omega) (by omega)
    exact absurd (lt_of_lt_of_le hj2 (le_trans this hk1)) (lt_irrefl _)
  · exact h
  · have := steps_mono f n hstep (k + 1) j (by omega) (by omega)
    exact absurd (lt_of_lt_of_le hk2 (le_trans this hj1)) (lt_irrefl _)

theorem fitBorders_cases (grid : String) :
    fitBorders grid = [100, 150, 200, 300, 400, 600, 800, 1000, 1200, 1500, 2000] ∨
    fitBorders grid = [50, 100, 150, 200, 250, 300, 350, 400, 450, 500, 2000] := by
  by_cases h : grid = "SlepSlep"
  · subst h
    exact Or.inr fitBorders_slep
  · exact Or.inl (fitBorders_standard grid h)

theorem fitBorders_steps (grid : String) :
    ∀ j, j < nFits → border (fitBorders grid) j < border (fitBorders grid) (j + 1) := by
  rcases fitBorders_cases grid with h | h <;> rw [h] <;> decide

theorem fitBorders_steps_cast (grid : String) :
    ∀ j, j < nFits →
      ((border (fitBorders grid) j : Int) : K) < ((border (fitBorders grid) (j + 1) : Int) : K) := by
  intro j hj
  exact_mod_cast fitBorders_steps grid j hj

/-- The half-open test selects at most one window. -/
theorem inWindow_unique (grid : String) (m : K) (j k : Nat) (hj : j < nFits) (hk : k < nFits)
    (h1 : inWindow (fitBorders grid) j m = true) (h2 : inWindow (fitBorders grid) k m = true) :
    j = k := by
  rw [inWindow_iff] at h1 h2
  exact cell_unique (fun i => ((border (fitBorders grid) i : Int) : K)) nFits
    (fitBorders_steps_cast grid) m j k hj hk h1.1 h1.2 h2.1 h2.2

/-- A step-wise increasing sequence is strictly increasing on its initial segment. -/
theorem steps_strict (f : Nat → K) (n : Nat) (hstep : ∀ j, j < n → f j < f (j + 1)) :
    ∀ i k, i < k → k ≤ n → f i < f k := by
  intro i k hik hk
  exact lt_of_lt_of_le (hstep i (by omega)) (steps_mono f n hstep (i + 1) k (by omega) hk)

/-- No window passes the half-open test for a mass outside the covered range. -/
theorem inWindow_outside (grid : String) (m : K)
    (hm : m < (border (fitBorders grid) 0 : K) ∨ (border (fitBorders grid) 10 : K) ≤ m)
    (j : Nat) (hj : j < nFits) : inWindow (fitBorders grid) j m = false := by
  have hmono := steps_mono (fun i => ((border (fitBorders grid) i : Int) : K)) nFits
    (fitBorders_steps_cast grid)
  cases hw : inWindow (fitBorders grid) j m with
  | false => rfl
  | true =>
    rw [inWindow_iff] at hw
    exfalso
    rcases hm with hm | hm
    · have := hmono 0 j (by omega) (by unfold nFits at *; omega)
      exact absurd (lt_of_le_of_lt (le_trans this hw.1) hm) (lt_irrefl _)
    · have := hmono (j + 1) 10 (by unfold nFits at *; omega) (by unfold nFits; omega)
      exact absurd (lt_of_lt_of_le hw.2 (le_trans this hm)) (lt_irrefl _)

end Partition

section Envelope

variable {K : Type} [LinearOrderedField K]

theorem fdiv_of_ne (a b : K) (h : b ≠ 0) : fdiv a b = some (a / b) := by
  unfold fdiv
  rw [if_neg h]

theorem fdiv_zero (a : K) : fdiv a 0 = none := by
  unfold fdiv
  rw [if_pos rfl]

theorem envelope_eq_max (up nom dn : K → K) (m : K) :
    envelope up nom dn m = max (up m - nom m) (nom m - dn m) := by
  unfold envelope
  by_cases h : up m - nom m > nom m - dn m
  · simp only [h, if_true]
    exact (max_eq_left (le_of_lt h)).symm
  · simp only [h, if_false]
    exact (max_eq_right (not_lt.mp h)).symm

/-- A loop of guarded assignments whose guard holds for no index leaves the state. -/
theorem forLoop_guard_none {S : Type} (n : Nat) (P : Nat → Bool) (g : Nat → S → S) (s : S)
    (hP : ∀ k, k < n → P k = false) :
    forLoop n (fun k r => if P k then g k r else r) s = s := by
  induction n with
  | zero => rfl
  | succ n ih =>
    rw [forLoop_succ, ih (fun k hk => hP k (by omega)), hP n (by omega)]
    simp

/-- A loop of guarded assignments whose guard holds for one index does that assignment. -/
theorem forLoop_guard_one {S : Type} (n : Nat) (P : Nat → Bool) (g : Nat → S → S) (s : S)
    (j : Nat) (hj : j < n) (hP : P j = true) (huniq : ∀ k, k < n → P k = true → k = j) :
    forLoop n (fun k r => if P k then g k r else r) s = g j s := by
  induction n with
  | zero => omega
  | succ n ih =>
    rw [forLoop_succ]
    by_cases hjn : j = n
    · subst hjn
      rw [forLoop_guard_none j P g s, hP]
      · simp
      · intro k hk
        cases hPk : P k with
        | false => rfl
        | true =>
          have := huniq k (by omega) hPk
          omega
    · have hPn : P n = false := by
        cases hPn : P n with
        | false => rfl
        | true =>
          have := huniq n (by omega) hPn
          omega
      rw [ih (by omega) (fun k hk => huniq k (by omega)), hPn]
      simp

theorem bandInner_of_window (grid : String) (fUp fNom fDn : Nat → K → K) (i j : Nat) (m : K)
    (rye : Nat → Option K) (hj : j < nFits) (hw : inWindow (fitBorders grid) j m = true) :
    bandInner (fitBorders grid) fUp fNom fDn i m rye =
      Function.update rye i (fdiv (envelope (fUp j) (fNom j) (fDn j) m) (fNom j m)) := by
  have h := forLoop_guard_one nFits (fun k => inWindow (fitBorders grid) k m)
    (fun k r => Function.update r i (fdiv (envelope (fUp k) (fNom k) (fDn k) m) (fNom k m)))
    rye j hj hw (fun k hk hkw => inWindow_unique grid m k j hk hj hkw hw)
  simpa only [bandInner] using h

theorem bandInner_no_window (b : List Int) (fUp fNom fDn : Nat → K → K) (i : Nat) (m : K)
    (rye : Nat → Option K) (hw : ∀ k, k < nFits → inWindow b k m = false) :
    bandInner b fUp fNom fDn i m rye = rye := by
  have h := forLoop_guard_none nFits (fun k => inWindow b k m)
    (fun k r => Function.update r i (fdiv (envelope (fUp k) (fNom k) (fDn k) m) (fNom k m)))
    rye hw
  simpa only [bandInner] using h

/-- The inner loop for fine-grid point `i` writes no other cell of `rye`. -/
theorem bandInner_other (b : List Int) (fUp fNom fDn : Nat → K → K) (i k : Nat) (m : K)
    (rye : Nat → Option K) (hk : k ≠ i) :
    bandInner b fUp fNom fDn i m rye k = rye k := by
  unfold bandInner
  generalize nFits = n
  induction n with
  | zero => rfl
  | succ n ih =>
    rw [forLoop_succ]
    by_cases h : inWindow b n m = true
    · simp only [h, if_true]
      rw [Function.update_noteq hk]
      exact ih
    · simp only [h]
      exact ih

theorem fitBand_rye (grid : String) (fUp fNom fDn : Nat → K → K) (i j n : Nat)
    (s : Band K) (hn : i < n) (hj : j < nFits)
    (hw : inWindow (fitBorders grid) j (100 + (i : K) * 10) = true) :
    (forLoop n (bandBody (fitBorders grid) fUp fNom fDn) s).rye i =
      fdiv (envelope (fUp j) (fNom j) (fDn j) (100 + (i : K) * 10))
        (fNom j (100 + (i : K) * 10)) := by
  induction n with
  | zero => omega
  | succ n ih =>
    rw [forLoop_succ]
    simp only [bandBody]
    by_cases hin : i = n
    · subst hin
      rw [bandInner_of_window grid fUp fNom fDn i j _ _ hj hw, Function.update_same]
    · rw [bandInner_other _ _ _ _ _ _ _ _ hin]
      exact ih (by omega)

theorem underflowExp_nonneg (x : ℚ) : 0 ≤ underflowExp x := by
  unfold underflowExp
  split <;> norm_num

end Envelope

section Expansion

variable {K : Type} [LinearOrderedField K]

/-- State of the arrays after `n` rounds of the expansion loop. -/
theorem expand_rounds (grid : String) (t : Tables K) (n : Nat) :
    (forLoop n (expandBody grid) t).x = t.x ∧
    (forLoop n (expandBody grid) t).xe = t.xe ∧
    (forLoop n (expandBody grid) t).y = t.y ∧
    (∀ i, (forLoop n (expandBody grid) t).ye i = if i < n then absUnc grid t i else t.ye i) ∧
    (∀ i, (forLoop n (expandBody grid) t).yUp i =
      if i < n then t.y i + absUnc grid t i else t.yUp i) ∧
    (∀ i, (forLoop n (expandBody grid) t).yeUp i =
      if i < n then fmul (t.y i + absUnc grid t i) (fdiv (absUnc grid t i) (t.y i))
      else t.yeUp i) ∧
    (∀ i, (forLoop n (expandBody grid) t).yDn i =
      if i < n then t.y i - absUnc grid t i else t.yDn i) ∧
    (∀ i, (forLoop n (expandBody grid) t).yeDn i =
      if i < n then fmul (t.y i - absUnc grid t i) (fdiv (absUnc grid t i) (t.y i))
      else t.yeDn i) := by
  induction n with
  | zero => simp [forLoop_zero]
  | succ n ih =>
    obtain ⟨hx, hxe, hy, hye, hyUp, hyeUp, hyDn, hyeDn⟩ := ih
    rw [forLoop_succ]
    have hyen : (forLoop n (expandBody grid) t).ye n = t.ye n := by
      rw [hye n]
      simp
    have hu : (if grid = "SlepSlep" then
          Function.update (forLoop n (expandBody grid) t).ye n
            ((forLoop n (expandBody grid) t).ye n * (forLoop n (expandBody grid) t).y n)
        else (forLoop n (expandBody grid) t).ye) n = absUnc grid t n := by
      unfold absUnc
      by_cases hg : grid = "SlepSlep"
      · rw [if_pos hg, if_pos hg, Function.update_same, hyen, hy]
      · rw [if_neg hg, if_neg hg, hyen]
    refine ⟨hx, hxe, hy, ?_, ?_, ?_, ?_, ?_⟩
    · intro i
      simp only [expandBody]
      by_cases hin : i = n
      · subst hin
        rw [hu]
        simp
      · by_cases hg : grid = "SlepSlep"
        · rw [if_pos hg, Function.update_noteq hin, hye i]
          by_cases hlt : i < n
          · simp [hlt, Nat.lt_succ_of_lt hlt]
          · have : ¬ i < n + 1 := by omega
            simp [hlt, this]
        · rw [if_neg hg, hye i]
          by_cases hlt : i < n
          · simp [hlt, Nat.lt_succ_of_lt hlt]
          · have : ¬ i < n + 1 := by omega
            simp [hlt, this]
    · intro i
      simp only [expandBody]
      by_cases hin : i = n
      · subst hin
        rw [Function.update_same, hu, hy]
        simp
      · rw [Function.update_noteq hin, hyUp i]
        by_cases hlt : i < n
        · simp [hlt, Nat.lt_succ_of_lt hlt]
        · have : ¬ i < n + 1 := by omega
          simp [hlt, this]
    · intro i
      simp only [expandBody]
      by_cases hin : i = n
      · subst hin
        rw [Function.update_same, Function.update_same, hu, hy]
        simp
      · rw [Function.update_noteq hin, hyeUp i]
        by_cases hlt : i < n
        · simp [hlt, Nat.lt_succ_of_lt hlt]
        · have : ¬ i < n + 1 := by omega
          simp [hlt, this]
    · intro i
      simp only [expandBody]
      by_cases hin : i = n
      · subst hin
        rw [Function.update_same, hu, hy]
        simp
      · rw [Function.update_noteq hin, hyDn i]
        by_cases hlt : i < n
        · simp [hlt, Nat.lt_succ_of_lt hlt]
        · have : ¬ i < n + 1 := by omega
          simp [hlt, this]
    · intro i
      simp only [expandBody]
      by_cases hin : i = n
      · subst hin
        rw [Function.update_same, Function.update_same, hu, hy]
        simp
      · rw [Function.update_noteq hin, hyeDn i]
        by_cases hlt : i < n
        · simp [hlt, Nat.lt_succ_of_lt hlt]
        · have : ¬ i < n + 1 := by omega
          simp [hlt, this]

theorem expand_at (grid : String) (t : Tables K) (i : Nat) (hi : i < nPoints grid) :
    (expandUncertainties grid t).y i = t.y i ∧
    (expandUncertainties grid t).ye i = absUnc grid t i ∧
    (expandUncertainties grid t).yUp i = t.y i + absUnc grid t i ∧
    (expandUncertainties grid t).yeUp i =
      fmul (t.y i + absUnc grid t i) (fdiv (absUnc grid t i) (t.y i)) ∧
    (expandUncertainties grid t).yDn i = t.y i - absUnc grid t i ∧
    (expandUncertainties grid t).yeDn i =
      fmul (t.y i - absUnc grid t i) (fdiv (absUnc grid t i) (t.y i)) := by
  obtain ⟨_, _, hy, hye, hyUp, hyeUp, hyDn, hyeDn⟩ := expand_rounds grid t (nPoints grid)
  unfold expandUncertainties
  refine ⟨by rw [hy], ?_, ?_, ?_, ?_, ?_⟩
  · rw [hye i, if_pos hi]
  · rw [hyUp i, if_pos hi]
  · rw [hyeUp i, if_pos hi]
  · rw [hyDn i, if_pos hi]
  · rw [hyeDn i, if_pos hi]

end Expansion


section Loader

theorem found_iff (grid comp : String) :
    found grid comp = true ↔ specWhitelist grid comp := by
  unfold found specWhitelist
  simp only [List.mem_cons, List.mem_singleton, List.not_mem_nil, or_false]
  simp only [Bool.and_eq_true, Bool.or_eq_true, decide_eq_true_eq, or_assoc]
  split_ifs with h3 h2 h1
  · simp only [true_iff]
    exact Or.inr (Or.inr h3)
  · simp only [true_iff]
    exact Or.inr (Or.inl h2)
  · simp only [true_iff]
    exact Or.inl h1
  · simp only [Bool.false_eq_true, false_iff]
    rintro (h | h | h)
    · exact h1 h
    · exact h2 h
    · exact h3 h

theorem skipWs_length (cs : List Char) : (skipWs cs).length ≤ cs.length := by
  induction cs with
  | nil => simp [skipWs]
  | cons c cs ih =>
    unfold skipWs
    split
    · simp only [List.length_cons]
      omega
    · exact le_refl _

theorem scanSign_length (cs : List Char) : (scanSign cs).2.length ≤ cs.length := by
  unfold scanSign
  split <;> simp

theorem scanDigits_length (cs : List Char) :
    (scanDigits cs).1.length + (scanDigits cs).2.length = cs.length := by
  induction cs with
  | nil => simp [scanDigits]
  | cons c cs ih =>
    unfold scanDigits
    split
    · simp only [List.length_cons]
      omega
    · simp

theorem scanFraction_length (cs : List Char) :
    (scanFraction cs).2.length ≤ cs.length ∧
    ((scanFraction cs).1 ≠ [] → (scanFraction cs).2.length < cs.length) := by
  unfold scanFraction
  split
  · rename_i r
    have := scanDigits_length r
    simp only [List.length_cons]
    constructor
    · omega
    · intro _
      omega
  · simp

theorem scanExponent_length (cs : List Char) :
    (scanExponent cs).2.length ≤ cs.length := by
  unfold scanExponent
  split
  · simp
  · rename_i c r
    have h1 := scanSign_length r
    have h2 := scanDigits_length (scanSign r).2
    split
    · simp only [List.length_cons]
      split <;> (simp only; omega)
    · exact le_refl _

theorem scanDouble_length (cs : List Char) :
    (scanDouble cs).2.length ≤ cs.length ∧
    ((scanDouble cs).1.isSome = true → (scanDouble cs).2.length < cs.length) := by
  have h1 := scanSign_length cs
  have h2 := scanDigits_length (scanSign cs).2
  have h3 := scanFraction_length (scanDigits (scanSign cs).2).2
  have h5 := scanExponent_length (scanFraction (scanDigits (scanSign cs).2).2).2
  unfold scanDouble
  simp only
  split
  · simp only [Option.isSome_none, Bool.false_eq_true, false_implies, and_true]
    omega
  · rename_i hne
    simp only [Bool.and_eq_true, List.isEmpty_iff, not_and] at hne
    dsimp only
    constructor
    · omega
    · intro _
      by_cases hip : (scanDigits (scanSign cs).2).1 = []
      · have := h3.2 (hne hip)
        omega
      · have : 0 < (scanDigits (scanSign cs).2).1.length := List.length_pos.mpr hip
        omega

theorem extractDouble_length (s : IStream) (v : ℚ) :
    (extractDouble s v).1.buf.length ≤ s.buf.length ∧
    ((extractDouble s v).1.good = true →
      s.good = true ∧ (extractDouble s v).1.buf.length < s.buf.length) := by
  unfold extractDouble
  split
  · simp [IStream.good]
  · rename_i hg
    have hws := skipWs_length s.buf
    split
    · simp [IStream.good]
    · rename_i c cs hsk
      have hsd := scanDouble_length (c :: cs)
      rw [hsk] at hws
      split
      · rename_i d rest heq
        rw [heq] at hsd
        simp only [Option.isSome_some, forall_true_left] at hsd
        simp only [Bool.not_eq_true, Bool.not_eq_false_eq_eq_true] at hg
        simp only [List.length_cons] at hws hsd
        dsimp only
        refine ⟨by omega, fun _ => ⟨?_, by omega⟩⟩
        simpa using hg
      · rename_i rest heq
        rw [heq] at hsd
        simp only [List.length_cons] at hws hsd
        simp only [IStream.good, Bool.not_true, Bool.and_false, Bool.false_eq_true,
          false_implies, and_true]
        omega

/-- More fuel than unread characters is never used up : the loop result no longer
depends on it. -/
theorem loadLoop_fuel (f1 f2 : Nat) (s : IStream) (index : Nat) (a b c : ℚ) (t : Tables ℚ)
    (h1 : s.buf.length < f1) (h2 : s.buf.length < f2) :
    loadLoop f1 s index a b c t = loadLoop f2 s index a b c t := by
  induction f1 generalizing f2 s index a b c t with
  | zero => omega
  | succ f1 ih =>
    cases f2 with
    | zero => omega
    | succ f2 =>
      unfold loadLoop
      simp only
      split
      · rfl
      · rename_i hg
        simp only [Bool.not_eq_true, Bool.not_eq_false_eq_eq_true] at hg
        have ea := extractDouble_length s a
        have eb := extractDouble_length (extractDouble s a).1 b
        have ec := extractDouble_length (extractDouble (extractDouble s a).1 b).1 c
        have hc := ec.2 (by simpa using hg)
        exact ih f2 _ _ _ _ _ _ (by omega) (by omega)

/-- The loader writes `x`, `y` and `ye` only. -/
theorem loadLoop_frame (fuel : Nat) (s : IStream) (index : Nat) (a b c : ℚ) (t : Tables ℚ) :
    (loadLoop fuel s index a b c t).xe = t.xe ∧
    (loadLoop fuel s index a b c t).yUp = t.yUp ∧
    (loadLoop fuel s index a b c t).yeUp = t.yeUp ∧
    (loadLoop fuel s index a b c t).yDn = t.yDn ∧
    (loadLoop fuel s index a b c t).yeDn = t.yeDn := by
  induction fuel generalizing s index a b c t with
  | zero => simp [loadLoop]
  | succ fuel ih =>
    unfold loadLoop
    simp only
    split
    · simp
    · exact ih _ _ _ _ _ _

theorem scanDouble_nil : scanDouble [] = (none, []) := rfl

/-- The stream left by an extraction does not depend on the old value of the variable. -/
theorem extractDouble_stream (s : IStream) (v w : ℚ) :
    (extractDouble s v).1 = (extractDouble s w).1 := by
  unfold extractDouble
  split
  · rfl
  · split
    · rfl
    · split <;> rfl

theorem validField_ne_nil (cs : List Char) (d : Decimal) (rest : List Char)
    (h : validField cs d rest) : skipWs cs ≠ [] ∧ cs ≠ [] := by
  unfold validField at h
  constructor
  · intro hnil
    rw [hnil, scanDouble_nil] at h
    simp at h
  · intro hnil
    rw [hnil] at h
    simp [skipWs, scanDouble_nil] at h

/-- Extraction of a valid field from a good stream. -/
theorem extractDouble_valid (cs : List Char) (d : Decimal) (rest : List Char) (v : ℚ)
    (h : validField cs d rest) :
    extractDouble ⟨cs, false, false⟩ v = (⟨rest, rest.isEmpty, false⟩, d.toRat) := by
  have hne := (validField_ne_nil cs d rest h).1
  unfold validField at h
  unfold extractDouble
  simp only [IStream.good, Bool.not_false, Bool.and_self, Bool.not_true, Bool.false_eq_true,
    if_false]
  cases hsk : skipWs cs with
  | nil => exact absurd hsk hne
  | cons c cs2 =>
    rw [hsk] at h
    simp only [h]

theorem isEmpty_false_of_ne {α : Type} (l : List α) (h : l ≠ []) : l.isEmpty = false := by
  cases l with
  | nil => exact absurd rfl h
  | cons a l => rfl

/-- One round of the loop on a complete record. -/
theorem loadLoop_round (fuel : Nat) (cs r1 r2 r3 : List Char) (da db dc : Decimal)
    (index : Nat) (a b c : ℚ) (t : Tables ℚ)
    (ha : validField cs da r1) (hb : validField r1 db r2) (hc : validField r2 dc r3)
    (h3 : r3 ≠ []) :
    loadLoop (fuel + 1) ⟨cs, false, false⟩ index a b c t =
      loadLoop fuel ⟨r3, false, false⟩ (index + 1) da.toRat db.toRat dc.toRat
        { t with x := Function.update t.x index da.toRat
                 y := Function.update t.y index db.toRat
                 ye := Function.update t.ye index dc.toRat } := by
  have e1 := extractDouble_valid cs da r1 a ha
  rw [isEmpty_false_of_ne r1 (validField_ne_nil r1 db r2 hb).2] at e1
  have e2 := extractDouble_valid r1 db r2 b hb
  rw [isEmpty_false_of_ne r2 (validField_ne_nil r2 dc r3 hc).2] at e2
  have e3 := extractDouble_valid r2 dc r3 c hc
  rw [isEmpty_false_of_ne r3 h3] at e3
  rw [loadLoop]
  simp only [e1, e2, e3, IStream.good, Bool.not_false, Bool.and_self, Bool.not_true,
    Bool.false_eq_true, if_false]

theorem validField_length (cs : List Char) (d : Decimal) (rest : List Char)
    (h : validField cs d rest) : rest.length < cs.length := by
  unfold validField at h
  have h1 := (scanDouble_length (skipWs cs)).2
  rw [h] at h1
  have h2 := skipWs_length cs
  have := h1 rfl
  simp only at this
  omega

/-- On a text made of complete records followed by a tail that ends the loop, the loader
stores those records in input order from `index` on and writes nothing else. -/
theorem loadLoop_records (recs : List (Decimal × Decimal × Decimal)) (cs tail : List Char)
    (index : Nat) (a b c : ℚ) (t : Tables ℚ)
    (h : holdsRecords cs recs tail = true) (ht : endsInput tail = true) :
    (∀ i (hi : i < recs.length),
      (loadLoop (cs.length + 1) ⟨cs, false, false⟩ index a b c t).x (index + i)
        = (recs.get ⟨i, hi⟩).1.toRat ∧
      (loadLoop (cs.length + 1) ⟨cs, false, false⟩ index a b c t).y (index + i)
        = (recs.get ⟨i, hi⟩).2.1.toRat ∧
      (loadLoop (cs.length + 1) ⟨cs, false, false⟩ index a b c t).ye (index + i)
        = (recs.get ⟨i, hi⟩).2.2.toRat) ∧
    (∀ j, j < index ∨ index + recs.length ≤ j →
      (loadLoop (cs.length + 1) ⟨cs, false, false⟩ index a b c t).x j = t.x j ∧
      (loadLoop (cs.length + 1) ⟨cs, false, false⟩ index a b c t).y j = t.y j ∧
      (loadLoop (cs.length + 1) ⟨cs, false, false⟩ index a b c t).ye j = t.ye j) := by
  induction recs generalizing cs index a b c t with
  | nil =>
    simp only [holdsRecords, decide_eq_true_eq] at h
    subst h
    have hbreak : loadLoop (cs.length + 1) ⟨cs, false, false⟩ index a b c t = t := by
      unfold endsInput at ht
      have hcond : (!(extractDouble (extractDouble
          (extractDouble ⟨cs, false, false⟩ a).1 b).1 c).1.good) = true := by
        rw [extractDouble_stream _ c 0, extractDouble_stream _ b 0,
          extractDouble_stream _ a 0]
        exact ht
      rw [loadLoop]
      exact if_pos hcond
    rw [hbreak]
    refine ⟨?_, fun j _ => ⟨rfl, rfl, rfl⟩⟩
    intro i hi
    simp at hi
  | cons r recs ih =>
    simp only [holdsRecords, Bool.and_eq_true, decide_eq_true_eq, Bool.not_eq_true',
      List.isEmpty_eq_false] at h
    obtain ⟨⟨⟨⟨h1, h2⟩, h3f⟩, h3⟩, hrest⟩ := h
    have ha : validField cs r.1 (scanDouble (skipWs cs)).2 := Prod.ext h1 rfl
    have hb : validField (scanDouble (skipWs cs)).2 r.2.1
        (scanDouble (skipWs (scanDouble (skipWs cs)).2)).2 := Prod.ext h2 rfl
    have hc : validField (scanDouble (skipWs (scanDouble (skipWs cs)).2)).2 r.2.2
        (scanDouble (skipWs (scanDouble (skipWs (scanDouble (skipWs cs)).2)).2)).2 :=
      Prod.ext h3f rfl
    generalize (scanDouble (skipWs (scanDouble (skipWs (scanDouble (skipWs cs)).2)).2)).2
      = r3 at h3 hrest hc
    generalize (scanDouble (skipWs (scanDouble (skipWs cs)).2)).2 = r2 at hb hc
    generalize (scanDouble (skipWs cs)).2 = r1 at ha hb
    have hlen : r3.length < cs.length := by
      have l1 := validField_length cs _ r1 ha
      have l2 := validField_length r1 _ r2 hb
      have l3 := validField_length r2 _ r3 hc
      omega
    have hround := loadLoop_round cs.length cs r1 r2 r3 r.1 r.2.1 r.2.2 index a b c t ha hb hc h3
    have hfuel := loadLoop_fuel cs.length (r3.length + 1) ⟨r3, false, false⟩ (index + 1)
      r.1.toRat r.2.1.toRat r.2.2.toRat
      { t with x := Function.update t.x index r.1.toRat
               y := Function.update t.y index r.2.1.toRat
               ye := Function.update t.ye index r.2.2.toRat } hlen (by simp)
    rw [hround, hfuel]
    obtain ⟨ih1, ih2⟩ := ih r3 (index + 1) r.1.toRat r.2.1.toRat r.2.2.toRat
      { t with x := Function.update t.x index r.1.toRat
               y := Function.update t.y index r.2.1.toRat
               ye := Function.update t.ye index r.2.2.toRat } hrest
    constructor
    · intro i hi
      cases i with
      | zero =>
        obtain ⟨k1, k2, k3⟩ := ih2 index (Or.inl (by omega))
        simp only [Nat.add_zero, List.get_eq_getElem, List.getElem_cons_zero]
        rw [k1, k2, k3]
        simp
      | succ i =>
        have hi2 : i < recs.length := by
          simp only [List.length_cons] at hi
          omega
        obtain ⟨k1, k2, k3⟩ := ih1 i hi2
        have hidx : index + (i + 1) = index + 1 + i := by omega
        simp only [List.get_eq_getElem, List.getElem_cons_succ] at k1 k2 k3 ⊢
        rw [hidx, k1, k2, k3]
        exact ⟨rfl, rfl, rfl⟩
    · intro j hj
      simp only [List.length_cons] at hj
      obtain ⟨k1, k2, k3⟩ := ih2 j (by omega)
      have hne : j ≠ index := by omega
      rw [k1, k2, k3]
      simp [Function.update_noteq hne]

/-- A record whose third field runs to the end of the input is not stored : the round
leaves the loop before the assignments of line 49. -/
theorem loadLoop_unterminated (fuel : Nat) (cs r1 r2 : List Char) (da db dc : Decimal)
    (index : Nat) (a b c : ℚ) (t : Tables ℚ)
    (ha : validField cs da r1) (hb : validField r1 db r2) (hc : validField r2 dc []) :
    loadLoop (fuel + 1) ⟨cs, false, false⟩ index a b c t = t := by
  have e1 := extractDouble_valid cs da r1 a ha
  rw [isEmpty_false_of_ne r1 (validField_ne_nil r1 db r2 hb).2] at e1
  have e2 := extractDouble_valid r1 db r2 b hb
  rw [isEmpty_false_of_ne r2 (validField_ne_nil r2 dc [] hc).2] at e2
  have e3 := extractDouble_valid r2 dc [] c hc
  rw [loadLoop]
  simp only [e1, e2, e3, IStream.good, List.isEmpty_nil, Bool.not_true, Bool.not_false,
    Bool.and_true, Bool.false_and, if_true]

/-- The loader on a whitelisted pair whose file holds `n <= 77` complete records, each
ended by at least one more character, and then a tail that ends the loop : the records
are stored in input order, every other entry and the whole of `xe` are unchanged. -/
theorem load_cross_sections_records (fs : String → Option String) (grid comp text : String)
    (recs : List (Decimal × Decimal × Decimal)) (tail : List Char) (t : Tables ℚ)
    (hw : found grid comp = true) (hfile : fs (inputPath grid comp) = some text)
    (h : holdsRecords text.toList recs tail = true) (ht : endsInput tail = true)
    (_hcap : recs.length ≤ 77) :
    (load_cross_sections fs grid comp t).1 = true ∧
    (∀ i (hi : i < recs.length),
      (load_cross_sections fs grid comp t).2.x i = (recs.get ⟨i, hi⟩).1.toRat ∧
      (load_cross_sections fs grid comp t).2.y i = (recs.get ⟨i, hi⟩).2.1.toRat ∧
      (load_cross_sections fs grid comp t).2.ye i = (recs.get ⟨i, hi⟩).2.2.toRat) ∧
    (∀ j, recs.length ≤ j →
      (load_cross_sections fs grid comp t).2.x j = t.x j ∧
      (load_cross_sections fs grid comp t).2.y j = t.y j ∧
      (load_cross_sections fs grid comp t).2.ye j = t.ye j) ∧
    (load_cross_sections fs grid comp t).2.xe = t.xe := by
  have hload : load_cross_sections fs grid comp t =
      (true, loadLoop (text.toList.length + 1) ⟨text.toList, false, false⟩ 0 0 0 0 t) := by
    simp only [load_cross_sections, hw, hfile, if_true, Option.map_some', openFile]
  rw [hload]
  obtain ⟨h1, h2⟩ := loadLoop_records recs text.toList tail 0 0 0 0 t h ht
  refine ⟨rfl, ?_, ?_, (loadLoop_frame _ _ _ _ _ _ _).1⟩
  · intro i hi
    have := h1 i hi
    simpa only [Nat.zero_add] using this
  · intro j hj
    exact h2 j (Or.inr (by omega))

/-- The loader on the two-record input `100 5 1\n150 3 0.5\n` : both records are stored,
index 2 stays at zero. -/
theorem load_two_records :
    (load_cross_sections (oneFile "100 5 1\n150 3 0.5\n") "C1N2" "wino" Tables.zero).2.x 1
      = Decimal.toRat ⟨false, 150, 0, false, 0⟩ ∧
    (load_cross_sections (oneFile "100 5 1\n150 3 0.5\n") "C1N2" "wino" Tables.zero).2.ye 1
      = Decimal.toRat ⟨false, 5, 1, false, 0⟩ ∧
    (load_cross_sections (oneFile "100 5 1\n150 3 0.5\n") "C1N2" "wino" Tables.zero).2.x 2
      = 0 := by
  obtain ⟨_, h1, h2, _⟩ := load_cross_sections_records (oneFile "100 5 1\n150 3 0.5\n")
    "C1N2" "wino" "100 5 1\n150 3 0.5\n"
    [(⟨false, 100, 0, false, 0⟩, ⟨false, 5, 0, false, 0⟩, ⟨false, 1, 0, false, 0⟩),
     (⟨false, 150, 0, false, 0⟩, ⟨false, 3, 0, false, 0⟩, ⟨false, 5, 1, false, 0⟩)]
    ['\n'] Tables.zero (by decide) (by decide) (by decide) (by decide) (by decide)
  exact ⟨(h1 1 (by decide)).1, (h1 1 (by decide)).2.2, (h2 2 (by decide)).1⟩

/-- A run on a whitelisted pair goes on to the expansion loop. -/
theorem fit_gaugino_tables_of_found (fs : String → Option String) (grid comp : String)
    (hw : found grid comp = true) :
    fit_gaugino_tables fs grid comp =
      some (expandUncertainties grid (load_cross_sections fs grid comp Tables.zero).2) := by
  simp only [fit_gaugino_tables, load_cross_sections, hw, Bool.not_true, if_true,
    Bool.false_eq_true, if_false]

/-- The expansion of a sample whose nominal value is zero : both pseudo-uncertainties are
the non-finite result of a division by zero. -/
theorem expand_zero_nominal {K : Type} [LinearOrderedField K] (grid : String) (t : Tables K)
    (i : Nat) (hi : i < nPoints grid) (hy : t.y i = 0) :
    (expandUncertainties grid t).y i = 0 ∧
    (expandUncertainties grid t).yUp i = (expandUncertainties grid t).ye i ∧
    (expandUncertainties grid t).yDn i = -(expandUncertainties grid t).ye i ∧
    (expandUncertainties grid t).yeUp i = none ∧
    (expandUncertainties grid t).yeDn i = none := by
  obtain ⟨h1, h2, h3, h4, h5, h6⟩ := expand_at grid t i hi
  rw [hy] at h1 h3 h4 h5 h6
  rw [fdiv_zero] at h4 h6
  refine ⟨h1, ?_, ?_, ?_, ?_⟩
  · rw [h3, h2, zero_add]
  · rw [h5, h2, zero_sub]
  · rw [h4]; rfl
  · rw [h6]; rfl

end Loader

section Boundary

variable {K : Type} [LinearOrderedField K]

/-- A search with `break` over `0 .. n-1` stops at the least index passing the test. -/
theorem find_range_first (P : Nat → Bool) (n j : Nat) (hj : j < n) (hP : P j = true)
    (hlt : ∀ i, i < j → P i = false) : (List.range n).find? P = some j := by
  induction n with
  | zero => omega
  | succ n ih =>
    rw [List.range_succ, List.find?_append]
    by_cases hjn : j = n
    · subst hjn
      have hnone : (List.range j).find? P = none := by
        rw [List.find?_eq_none]
        intro x hx
        rw [List.mem_range] at hx
        simp [hlt x hx]
      rw [hnone]
      simp [List.find?, hP]
    · rw [ih (by omega)]
      rfl

/-- At an interior boundary `fitBorders[k]` the inclusive test first holds for `k - 1`. -/
theorem reportWindow_boundary (grid : String) (k : Nat) (hk1 : 1 ≤ k) (hk : k ≤ 10) :
    reportWindow (fitBorders grid) ((border (fitBorders grid) k : Int) : K) = some (k - 1) := by
  have hstrict := steps_strict (fun i => ((border (fitBorders grid) i : Int) : K)) nFits
    (fitBorders_steps_cast grid)
  have hmono := steps_mono (fun i => ((border (fitBorders grid) i : Int) : K)) nFits
    (fitBorders_steps_cast grid)
  unfold reportWindow
  apply find_range_first
  · unfold nFits
    omega
  · rw [inWindowIncl_iff]
    have hk' : k - 1 + 1 = k := by omega
    rw [hk']
    exact ⟨hmono (k - 1) k (by omega) (by unfold nFits; omega), le_refl _⟩
  · intro i hi
    cases hw : inWindowIncl (fitBorders grid) i ((border (fitBorders grid) k : Int) : K) with
    | false => rfl
    | true =>
      rw [inWindowIncl_iff] at hw
      have := hstrict (i + 1) k (by omega) (by unfold nFits; omega)
      exact absurd (lt_of_le_of_lt hw.2 this) (lt_irrefl _)

/-- At a boundary `fitBorders[k]` with `k < 10` the half-open test holds for window `k`. -/
theorem inWindow_boundary (grid : String) (k : Nat) (hk : k < nFits) :
    inWindow (fitBorders grid) k ((border (fitBorders grid) k : Int) : K) = true := by
  rw [inWindow_iff]
  exact ⟨le_refl _, fitBorders_steps_cast grid k hk⟩

theorem ratioFitXsec_of_window (grid : String) (fNom : Nat → K → K) (j : Nat) (m : K)
    (hj : j < nFits) (hw : inWindow (fitBorders grid) j m = true) :
    ratioFitXsec (fitBorders grid) fNom m = fNom j m := by
  have h := forLoop_guard_one nFits (fun k => inWindow (fitBorders grid) k m)
    (fun k _ => fNom k m) (-1) j hj hw
    (fun k hk hkw => inWindow_unique grid m k j hk hj hkw hw)
  simpa only [ratioFitXsec] using h

theorem ratioFitXsec_no_window (b : List Int) (fNom : Nat → K → K) (m : K)
    (hw : ∀ k, k < nFits → inWindow b k m = false) :
    ratioFitXsec b fNom m = -1 := by
  have h := forLoop_guard_none nFits (fun k => inWindow b k m)
    (fun k _ => fNom k m) (-1) hw
  simpa only [ratioFitXsec] using h

/-- Every interior boundary is a fine-grid mass `100 + 10*i`. -/
theorem boundary_on_fine_grid (grid : String) (k : Nat) (hk1 : 1 ≤ k) (hk9 : k ≤ 9) :
    ∃ i : Nat, i < 190 ∧ ((border (fitBorders grid) k : Int) : K) = 100 + (i : K) * 10 := by
  have h : ∃ i : Nat, i < 190 ∧ border (fitBorders grid) k = 100 + (i : Int) * 10 := by
    refine ⟨((border (fitBorders grid) k - 100) / 10).toNat, ?_, ?_⟩ <;>
      rcases fitBorders_cases grid with h | h <;> rw [h] <;> interval_cases k <;> decide
  obtain ⟨i, hi, he⟩ := h
  refine ⟨i, hi, ?_⟩
  rw [he]
  push_cast
  rfl

theorem border_ge_fifty (grid : String) (k : Nat) (hk : k ≤ 10) :
    (50 : K) ≤ ((border (fitBorders grid) k : Int) : K) := by
  have h : (50 : Int) ≤ border (fitBorders grid) k := by
    rcases fitBorders_cases grid with h | h <;> rw [h] <;> interval_cases k <;> decide
  exact_mod_cast h

/-- A line of the table stays in it through the later rounds of the reporter loop. -/
theorem reportBody_mem (grid : String) (fUp fNom fDn : Nat → K → K) (t : Tables K)
    (i : Nat) (out : List (Option (Row K))) (line : Option (Row K)) (h : line ∈ out) :
    line ∈ reportBody grid fUp fNom fDn t i out := by
  unfold reportBody
  simp only
  split
  · exact h
  · exact List.mem_append_left _ h

/-- The line of every sample `i < n` whose mass is not below `1.e-3` is in the table
after `n` rounds of the reporter loop. -/
theorem report_contains (grid : String) (fUp fNom fDn : Nat → K → K) (t : Tables K)
    (i n : Nat) (out : List (Option (Row K))) (hi : i < n) (hx : ¬ t.x i < 1 / 1000) :
    (reportWindow (fitBorders grid) (t.x i)).map (reportRow fUp fNom fDn t i) ∈
      forLoop n (reportBody grid fUp fNom fDn t) out := by
  induction n with
  | zero => omega
  | succ n ih =>
    rw [forLoop_succ]
    by_cases hin : i = n
    · subst hin
      unfold reportBody
      simp only
      rw [if_neg hx]
      exact List.mem_append_right _ (List.mem_singleton.mpr rfl)
    · exact reportBody_mem grid fUp fNom fDn t n _ _ (ih (by omega))

end Boundary

/-- C6 : for the boundary list of every grid (the standard list and the one built for
`SlepSlep`) there are 11 boundaries, strictly increasing; the range of window `j` ends
where the range of window `j+1` starts; every mass `m` with
`fitBorders[0] <= m < fitBorders[10]` passes the half-open test
`m >= fitBorders[j] && m < fitBorders[j+1]` for exactly one `j < 10`, and a mass outside
that range passes it for no `j < 10`. -/
theorem windows_partition {K : Type} [LinearOrderedField K] (grid : String) :
    (fitBorders grid).length = 11 ∧
    (∀ j, j < nFits → border (fitBorders grid) j < border (fitBorders grid) (j + 1)) ∧
    (∀ j, (windowRange (fitBorders grid) j).2 = (windowRange (fitBorders grid) (j + 1)).1) ∧
    (∀ m : K, (border (fitBorders grid) 0 : K) ≤ m → m < (border (fitBorders grid) 10 : K) →
      ∃! j, j < nFits ∧ inWindow (fitBorders grid) j m = true) ∧
    (∀ m : K, (m < (border (fitBorders grid) 0 : K) ∨ (border (fitBorders grid) 10 : K) ≤ m) →
      ∀ j, j < nFits → inWindow (fitBorders grid) j m = false) := by
  refine ⟨?_, fitBorders_steps grid, fun _ => rfl, ?_, ?_⟩
  · rcases fitBorders_cases grid with h | h <;> rw [h] <;> rfl
  · intro m h0 h10
    obtain ⟨j, hj, h1, h2⟩ :=
      cell_exists (fun i => ((border (fitBorders grid) i : Int) : K)) nFits m h0 h10
    refine ⟨j, ⟨hj, (inWindow_iff _ _ _).mpr ⟨h1, h2⟩⟩, ?_⟩
    rintro k ⟨hk, hkw⟩
    exact inWindow_unique grid m k j hk hj hkw ((inWindow_iff _ _ _).mpr ⟨h1, h2⟩)
  · intro m hm j hj
    exact inWindow_outside grid m hm j hj

/-- C6 at grid `C1N2` and mass 150 : window 1 is the one window that holds it. -/
theorem windows_partition_witness :
    ∃! j, j < nFits ∧ inWindow (fitBorders "C1N2") j (150 : ℚ) = true :=
  (windows_partition (K := ℚ) "C1N2").2.2.2.1 150
    (by rw [fitBorders_standard "C1N2" (by decide)]; norm_num [border])
    (by rw [fitBorders_standard "C1N2" (by decide)]; norm_num [border])

/-- C2 : for a mass `m` that passes the window test of window `j`, the envelope the code
computes with `var1>var2 ? var1:var2` is `max(var1, var2)`, so it is at least `var1` and at
least `var2`; and when `m` is the fine-grid mass `100 + 10*i`, the band value `rye[i]` is
that maximum divided by `Nominal_j(m)` : the quotient itself when `Nominal_j(m)` is not
zero, the non-finite result of the division when it is. -/
theorem envelope_computation {K : Type} [LinearOrderedField K] (grid : String)
    (fUp fNom fDn : Nat → K → K) (j : Nat) (m : K) (hj : j < nFits)
    (hw : inWindow (fitBorders grid) j m = true) :
    envelope (fUp j) (fNom j) (fDn j) m = max (fUp j m - fNom j m) (fNom j m - fDn j m) ∧
    fUp j m - fNom j m ≤ envelope (fUp j) (fNom j) (fDn j) m ∧
    fNom j m - fDn j m ≤ envelope (fUp j) (fNom j) (fDn j) m ∧
    (∀ i : Nat, i < 190 → m = 100 + (i : K) * 10 →
      (fitBand grid fUp fNom fDn).rye i =
        fdiv (max (fUp j m - fNom j m) (fNom j m - fDn j m)) (fNom j m)) ∧
    (∀ i : Nat, i < 190 → m = 100 + (i : K) * 10 → fNom j m ≠ 0 →
      (fitBand grid fUp fNom fDn).rye i =
        some (max (fUp j m - fNom j m) (fNom j m - fDn j m) / fNom j m)) ∧
    (∀ i : Nat, i < 190 → m = 100 + (i : K) * 10 → fNom j m = 0 →
      (fitBand grid fUp fNom fDn).rye i = none) := by
  have hmax := envelope_eq_max (fUp j) (fNom j) (fDn j) m
  have hrye : ∀ i : Nat, i < 190 → m = 100 + (i : K) * 10 →
      (fitBand grid fUp fNom fDn).rye i =
        fdiv (max (fUp j m - fNom j m) (fNom j m - fDn j m)) (fNom j m) := by
    intro i hi hm
    subst hm
    rw [← hmax]
    exact fitBand_rye grid fUp fNom fDn i j 190 Band.zero hi hj hw
  refine ⟨hmax, ?_, ?_, hrye, ?_, ?_⟩
  · rw [hmax]
    exact le_max_left _ _
  · rw [hmax]
    exact le_max_right _ _
  · intro i hi hm hne
    rw [hrye i hi hm]
    unfold fdiv
    rw [if_neg hne]
  · intro i hi hm h0
    rw [hrye i hi hm, h0]
    unfold fdiv
    rw [if_pos rfl]

/-- C2 at grid `C1N2`, window 1, mass 150 = 100 + 10*5, with curves that differ from
window to window (Up = 2j+3, Nominal = j+1, Down = 0) : the envelope of window 1 is
`max(3, 2) = 3` and `rye[5]` is `3/2`. -/
theorem envelope_computation_witness :
    envelope (fun _ : ℚ => 5) (fun _ => 2) (fun _ => 0) 150 = 3 ∧
    (fitBand "C1N2" (fun j _ => 2 * (j : ℚ) + 3) (fun j _ => (j : ℚ) + 1)
      (fun _ _ => 0)).rye 5 = some (3 / 2) := by
  have h := envelope_computation (K := ℚ) "C1N2" (fun j _ => 2 * (j : ℚ) + 3)
    (fun j _ => (j : ℚ) + 1) (fun _ _ => 0) 1 150 (by decide)
    (by rw [fitBorders_standard "C1N2" (by decide)]; norm_num [inWindow, border])
  obtain ⟨h1, _, _, _, h5, _⟩ := h
  constructor
  · norm_num at h1
    exact h1
  · have := h5 5 (by norm_num) (by norm_num) (by norm_num)
    rw [this]
    norm_num

/-- C5, as stated, fails : with Nominal = exp(0), Up = exp(-1) and Down = exp(1) the band
value `rye[0]` at mass 100 (window 0 of grid `C1N2`) is negative. -/
theorem envelope_fraction_negative :
    ∃ q : ℝ,
      (fitBand "C1N2" (fun _ => evalTF1 Real.exp Real.log ![-1, 0, 0])
        (fun _ => evalTF1 Real.exp Real.log ![0, 0, 0])
        (fun _ => evalTF1 Real.exp Real.log ![1, 0, 0])).rye 0 = some q ∧ q < 0 := by
  have hw : inWindow (fitBorders "C1N2") 0 (100 + ((0 : Nat) : ℝ) * 10) = true := by
    rw [fitBorders_standard "C1N2" (by decide)]
    norm_num [inWindow, border]
  have h := fitBand_rye "C1N2" (fun _ => evalTF1 Real.exp Real.log ![-1, 0, 0])
    (fun _ => evalTF1 Real.exp Real.log ![0, 0, 0])
    (fun _ => evalTF1 Real.exp Real.log ![1, 0, 0]) 0 0 190 Band.zero (by norm_num)
    (by decide) hw
  have hpos : (0 : ℝ) < evalTF1 Real.exp Real.log ![0, 0, 0] (100 + ((0 : Nat) : ℝ) * 10) :=
    Real.exp_pos _
  rw [fdiv_of_ne _ _ (ne_of_gt hpos)] at h
  refine ⟨_, h, ?_⟩
  · rw [envelope_eq_max]
    simp only [evalTF1, expoFunc, Matrix.cons_val_zero, Matrix.cons_val_one, Matrix.head_cons,
      Matrix.cons_val_two, Matrix.tail_cons, zero_mul, add_zero, Real.exp_zero, div_one]
    have h1 : Real.exp (-1) < 1 := Real.exp_lt_one_iff.mpr (by norm_num)
    have h2 : (1 : ℝ) < Real.exp 1 := Real.one_lt_exp_iff.mpr (by norm_num)
    exact max_lt (by linarith) (by linarith)

/-- C5, amended : for a mass `m` in window `j` and curves `exp(a + b*m + c*ln m)` with
arbitrary coefficients, where `exp` returns a non-negative finite number (zero when it
underflows) : `Nominal_j(m) >= 0`; when `Nominal_j(m)` is not zero the fraction
`max(Up_j(m) - Nominal_j(m), Nominal_j(m) - Down_j(m)) / Nominal_j(m)` is the band value
`rye[i]` for `m = 100 + 10*i`, and it is `>= 0` exactly when `Up_j(m) >= Nominal_j(m)` or
`Nominal_j(m) >= Down_j(m)`; when `Nominal_j(m)` is zero the band value is the non-finite
result of a division by zero. -/
theorem envelope_fraction_sign {K : Type} [LinearOrderedField K] (exp log : K → K)
    (grid : String) (pUp pNom pDn : Nat → Fin 3 → K) (j : Nat) (m : K)
    (hexp : ∀ x, 0 ≤ exp x) (hj : j < nFits) (hw : inWindow (fitBorders grid) j m = true) :
    evalTF1 exp log (pUp j) m = exp (pUp j 0 + pUp j 1 * m + pUp j 2 * log m) ∧
    evalTF1 exp log (pNom j) m = exp (pNom j 0 + pNom j 1 * m + pNom j 2 * log m) ∧
    evalTF1 exp log (pDn j) m = exp (pDn j 0 + pDn j 1 * m + pDn j 2 * log m) ∧
    0 ≤ evalTF1 exp log (pNom j) m ∧
    (evalTF1 exp log (pNom j) m ≠ 0 →
      0 < evalTF1 exp log (pNom j) m ∧
      (∀ i : Nat, i < 190 → m = 100 + (i : K) * 10 →
        (fitBand grid (fun k => evalTF1 exp log (pUp k)) (fun k => evalTF1 exp log (pNom k))
          (fun k => evalTF1 exp log (pDn k))).rye i =
          some (max (evalTF1 exp log (pUp j) m - evalTF1 exp log (pNom j) m)
            (evalTF1 exp log (pNom j) m - evalTF1 exp log (pDn j) m) /
              evalTF1 exp log (pNom j) m)) ∧
      (0 ≤ max (evalTF1 exp log (pUp j) m - evalTF1 exp log (pNom j) m)
            (evalTF1 exp log (pNom j) m - evalTF1 exp log (pDn j) m) /
              evalTF1 exp log (pNom j) m ↔
        (evalTF1 exp log (pNom j) m ≤ evalTF1 exp log (pUp j) m ∨
          evalTF1 exp log (pDn j) m ≤ evalTF1 exp log (pNom j) m))) ∧
    (evalTF1 exp log (pNom j) m = 0 →
      ∀ i : Nat, i < 190 → m = 100 + (i : K) * 10 →
        (fitBand grid (fun k => evalTF1 exp log (pUp k)) (fun k => evalTF1 exp log (pNom k))
          (fun k => evalTF1 exp log (pDn k))).rye i = none) := by
  have hnn : 0 ≤ evalTF1 exp log (pNom j) m := hexp _
  have hrye : ∀ i : Nat, i < 190 → m = 100 + (i : K) * 10 →
      (fitBand grid (fun k => evalTF1 exp log (pUp k)) (fun k => evalTF1 exp log (pNom k))
        (fun k => evalTF1 exp log (pDn k))).rye i =
        fdiv (max (evalTF1 exp log (pUp j) m - evalTF1 exp log (pNom j) m)
            (evalTF1 exp log (pNom j) m - evalTF1 exp log (pDn j) m))
          (evalTF1 exp log (pNom j) m) := by
    intro i hi hm
    subst hm
    rw [← envelope_eq_max]
    exact fitBand_rye grid (fun k => evalTF1 exp log (pUp k))
      (fun k => evalTF1 exp log (pNom k)) (fun k => evalTF1 exp log (pDn k))
      i j 190 Band.zero hi hj hw
  refine ⟨rfl, rfl, rfl, hnn, ?_, ?_⟩
  · intro hne
    have hpos : 0 < evalTF1 exp log (pNom j) m := lt_of_le_of_ne hnn (Ne.symm hne)
    refine ⟨hpos, ?_, ?_⟩
    · intro i hi hm
      rw [hrye i hi hm]
      unfold fdiv
      rw [if_neg hne]
    · rw [div_nonneg_iff]
      constructor
      · rintro (⟨h, _⟩ | ⟨_, h⟩)
        · rcases le_max_iff.mp h with h | h
          · exact Or.inl (by linarith)
          · exact Or.inr (by linarith)
        · exact absurd hpos (not_lt.mpr h)
      · rintro (h | h)
        · exact Or.inl ⟨le_max_of_le_left (by linarith), le_of_lt hpos⟩
        · exact Or.inl ⟨le_max_of_le_right (by linarith), le_of_lt hpos⟩
  · intro h0 i hi hm
    rw [hrye i hi hm, h0]
    unfold fdiv
    rw [if_pos rfl]

/-- C5 amended, at grid `C1N2`, window 0, mass 100 : with the real exponential and the
curves Up = exp(1), Nominal = exp(0), Down = exp(-1) the band value `rye[0]` is the
quotient and is `>= 0`; with an exponential that underflows to zero below -700 and the
nominal coefficients (-1000, 0, 0) the band value is not finite. -/
theorem envelope_fraction_sign_witness :
    (∃ q : ℝ,
      (fitBand "C1N2" (fun _ => evalTF1 Real.exp Real.log ![1, 0, 0])
        (fun _ => evalTF1 Real.exp Real.log ![0, 0, 0])
        (fun _ => evalTF1 Real.exp Real.log ![-1, 0, 0])).rye 0 = some q ∧ 0 ≤ q) ∧
    (fitBand "C1N2" (fun _ => evalTF1 underflowExp (fun _ => 0) ![0, 0, 0])
      (fun _ => evalTF1 underflowExp (fun _ => 0) ![-1000, 0, 0])
      (fun _ => evalTF1 underflowExp (fun _ => 0) ![0, 0, 0])).rye 0 = none := by
  have hwR : inWindow (fitBorders "C1N2") 0 (100 : ℝ) = true := by
    rw [fitBorders_standard "C1N2" (by decide)]
    norm_num [inWindow, border]
  have hwQ : inWindow (fitBorders "C1N2") 0 (100 : ℚ) = true := by
    rw [fitBorders_standard "C1N2" (by decide)]
    norm_num [inWindow, border]
  obtain ⟨_, _, _, _, h2, _⟩ := envelope_fraction_sign Real.exp Real.log "C1N2"
    (fun _ => ![1, 0, 0]) (fun _ => ![0, 0, 0]) (fun _ => ![-1, 0, 0]) 0 100
    (fun x => (Real.exp_pos x).le) (by decide) hwR
  obtain ⟨_, _, _, _, _, h3⟩ := envelope_fraction_sign underflowExp (fun _ => 0) "C1N2"
    (fun _ => ![0, 0, 0]) (fun _ => ![-1000, 0, 0]) (fun _ => ![0, 0, 0]) 0 100
    underflowExp_nonneg (by decide) hwQ
  constructor
  · obtain ⟨_, hrye, hiff⟩ := h2 (ne_of_gt (Real.exp_pos _))
    refine ⟨_, hrye 0 (by norm_num) (by norm_num), hiff.mpr (Or.inl ?_)⟩
    simp only [evalTF1, expoFunc, Matrix.cons_val_zero, Matrix.cons_val_one, Matrix.head_cons,
      Matrix.cons_val_two, Matrix.tail_cons, zero_mul, add_zero]
    exact Real.exp_le_exp.mpr (by norm_num)
  · exact h3 (by norm_num [evalTF1, expoFunc, underflowExp]) 0 (by norm_num) (by norm_num)

/-- C1 : for every sample `i < nPoints` with `y[i] != 0`, with `u = ye[i]` as tabulated for
a grid other than `SlepSlep` and `u = ye[i]*y[i]` for `SlepSlep`, the loop stores `u` back
in `ye[i]` and produces `yUp[i] = y[i] + u`, `yeUp[i] = (y[i] + u) * (u / y[i])`,
`yDn[i] = y[i] - u`, `yeDn[i] = (y[i] - u) * (u / y[i])`; for `SlepSlep` with tabulated
fraction `f`, `yeUp[i] = y[i]*(1+f)*f` and `yeDn[i] = y[i]*(1-f)*f`. -/
theorem expansion_rule {K : Type} [LinearOrderedField K] (grid : String) (t : Tables K)
    (i : Nat) (u : K) (hi : i < nPoints grid) (hy : t.y i ≠ 0)
    (hu : u = if grid = "SlepSlep" then t.ye i * t.y i else t.ye i) :
    (expandUncertainties grid t).y i = t.y i ∧
    (expandUncertainties grid t).ye i = u ∧
    (expandUncertainties grid t).yUp i = t.y i + u ∧
    (expandUncertainties grid t).yeUp i = some ((t.y i + u) * (u / t.y i)) ∧
    (expandUncertainties grid t).yDn i = t.y i - u ∧
    (expandUncertainties grid t).yeDn i = some ((t.y i - u) * (u / t.y i)) ∧
    (grid = "SlepSlep" →
      (expandUncertainties grid t).yeUp i = some (t.y i * (1 + t.ye i) * t.ye i) ∧
      (expandUncertainties grid t).yeDn i = some (t.y i * (1 - t.ye i) * t.ye i)) := by
  obtain ⟨h1, h2, h3, h4, h5, h6⟩ := expand_at grid t i hi
  have hu2 : absUnc grid t i = u := by rw [hu]; rfl
  rw [hu2] at h2 h3 h4 h5 h6
  rw [fdiv_of_ne _ _ hy] at h4 h6
  refine ⟨h1, h2, h3, h4, h5, h6, ?_⟩
  intro hg
  rw [if_pos hg] at hu
  have hq : u / t.y i = t.ye i := by
    rw [hu]
    field_simp
  rw [h4, h6, hq, hu]
  constructor
  · simp only [fmul, Option.map_some']
    congr 1
    ring
  · simp only [fmul, Option.map_some']
    congr 1
    ring

/-- C1 at grid `SlepSlep`, sample 0 with cross-section 2 and fraction 1/2 : `u = 1`,
`yUp[0] = 3`, `yeUp[0] = 3/2`, `yDn[0] = 1`, `yeDn[0] = 1/2`. -/
theorem expansion_rule_witness :
    (expandUncertainties "SlepSlep" slepSample).ye 0 = 1 ∧
    (expandUncertainties "SlepSlep" slepSample).yUp 0 = 3 ∧
    (expandUncertainties "SlepSlep" slepSample).yeUp 0 = some (3 / 2) ∧
    (expandUncertainties "SlepSlep" slepSample).yDn 0 = 1 ∧
    (expandUncertainties "SlepSlep" slepSample).yeDn 0 = some (1 / 2) := by
  have h := expansion_rule "SlepSlep" slepSample 0 1 (by decide)
    (by norm_num [slepSample]) (by norm_num [slepSample])
  obtain ⟨_, h2, h3, h4, h5, h6, _⟩ := h
  refine ⟨h2, ?_, ?_, ?_, ?_⟩
  · rw [h3]; norm_num [slepSample]
  · rw [h4]; norm_num [slepSample]
  · rw [h5]; norm_num [slepSample]
  · rw [h6]; norm_num [slepSample]

/-- C4, as stated, fails : for grid `SlepSlep` a sample with cross-section -1 and the
non-negative tabulated fraction 1/2 gets `yUp[0] = -3/2 < y[0] = -1`. -/
theorem ordering_fails_for_negative_slep :
    0 ≤ negativeSample.ye 0 ∧
    (expandUncertainties "SlepSlep" negativeSample).yUp 0 <
      (expandUncertainties "SlepSlep" negativeSample).y 0 := by
  obtain ⟨h1, _, h3, _⟩ := expand_at "SlepSlep" negativeSample 0 (by decide)
  rw [h1, h3]
  norm_num [negativeSample, absUnc]

/-- C4, amended : for every sample `i < nPoints` whose tabulated uncertainty `ye[i]` is
non-negative, and whose cross-section `y[i]` is non-negative when the grid is `SlepSlep`,
the expanded values satisfy `yUp[i] >= y[i] >= yDn[i]`. -/
theorem ordering_of_series {K : Type} [LinearOrderedField K] (grid : String) (t : Tables K)
    (i : Nat) (hi : i < nPoints grid) (hye : 0 ≤ t.ye i)
    (hy : grid = "SlepSlep" → 0 ≤ t.y i) :
    (expandUncertainties grid t).yDn i ≤ (expandUncertainties grid t).y i ∧
    (expandUncertainties grid t).y i ≤ (expandUncertainties grid t).yUp i := by
  obtain ⟨h1, _, h3, _, h5, _⟩ := expand_at grid t i hi
  have hu : 0 ≤ absUnc grid t i := by
    unfold absUnc
    by_cases hg : grid = "SlepSlep"
    · rw [if_pos hg]
      exact mul_nonneg hye (hy hg)
    · rw [if_neg hg]
      exact hye
  rw [h1, h3, h5]
  constructor <;> linarith

/-- C4 amended, at grid `SlepSlep`, sample 0 with cross-section 2 and fraction 1/2. -/
theorem ordering_of_series_witness :
    (expandUncertainties "SlepSlep" slepSample).yDn 0 ≤
      (expandUncertainties "SlepSlep" slepSample).y 0 ∧
    (expandUncertainties "SlepSlep" slepSample).y 0 ≤
      (expandUncertainties "SlepSlep" slepSample).yUp 0 :=
  ordering_of_series "SlepSlep" slepSample 0 (by decide) (by norm_num [slepSample])
    (fun _ => by norm_num [slepSample])

/-- C10 : for a sample whose mass is an interior boundary `fitBorders[k]`, `1 <= k <= 9`,
the Reporter (inclusive test, first match, `break`) uses window `k-1` : it emits exactly
one row, whose fitted cross-section is `Nominal_(k-1)(m)` and whose fitted uncertainty is
the envelope of window `k-1`; the ratio markers and the fine-grid band (half-open test)
use window `k` : the marker is `y / Nominal_k(m)` and the band value is the envelope of
window `k` over `Nominal_k(m)`.  For a mass equal to `fitBorders[10]` the Reporter uses
window 9 while the ratio path matches no window and keeps `fitXsec = -1`. -/
theorem boundary_window_choice {K : Type} [LinearOrderedField K] (grid : String)
    (fUp fNom fDn : Nat → K → K) (t : Tables K) (k : Nat) (m : K)
    (hk1 : 1 ≤ k) (hk9 : k ≤ 9) (hm : m = ((border (fitBorders grid) k : Int) : K)) :
    reportWindow (fitBorders grid) m = some (k - 1) ∧
    (∀ i out, t.x i = m →
      reportBody grid fUp fNom fDn t i out =
        out ++ [some (reportRow fUp fNom fDn t i (k - 1))]) ∧
    ratioFitXsec (fitBorders grid) fNom m = fNom k m ∧
    (∀ i, t.x i = m → (ratioPoint grid fNom t i).py = fdiv (t.y i) (fNom k m)) ∧
    (∃ i : Nat, i < 190 ∧ m = 100 + (i : K) * 10) ∧
    (∀ i : Nat, i < 190 → m = 100 + (i : K) * 10 →
      (fitBand grid fUp fNom fDn).rye i =
        fdiv (envelope (fUp k) (fNom k) (fDn k) m) (fNom k m)) ∧
    reportWindow (fitBorders grid) (((border (fitBorders grid) 10 : Int) : K)) = some 9 ∧
    ratioFitXsec (fitBorders grid) fNom (((border (fitBorders grid) 10 : Int) : K)) = -1 ∧
    (∀ i out, t.x i = m →
      ∃ row, reportBody grid fUp fNom fDn t i out = out ++ [some row] ∧
        row.mass = m ∧ row.xsec = t.y i ∧ row.unc = t.ye i ∧
        row.fitted = fNom (k - 1) m ∧
        row.fittedUnc =
          max (fUp (k - 1) m - fNom (k - 1) m) (fNom (k - 1) m - fDn (k - 1) m) ∧
        (t.y i ≠ 0 → row.xsecDiff = some ((fNom (k - 1) m - t.y i) / t.y i * 100)) ∧
        (t.ye i ≠ 0 → row.uncDiff =
          some ((max (fUp (k - 1) m - fNom (k - 1) m) (fNom (k - 1) m - fDn (k - 1) m)
            - t.ye i) / t.ye i * 100))) ∧
    (∀ i, i < nPoints grid → t.x i = m →
      some (reportRow fUp fNom fDn t i (k - 1)) ∈ report grid fUp fNom fDn t) ∧
    (∀ i, t.x i = m → fNom k m ≠ 0 →
      (ratioPoint grid fNom t i).px = m ∧
      (ratioPoint grid fNom t i).py = some (t.y i / fNom k m) ∧
      (ratioPoint grid fNom t i).ey = some (t.ye i / fNom k m)) ∧
    (∀ i : Nat, i < 190 → m = 100 + (i : K) * 10 → fNom k m ≠ 0 →
      (fitBand grid fUp fNom fDn).rye i =
        some (max (fUp k m - fNom k m) (fNom k m - fDn k m) / fNom k m)) ∧
    (∀ i out, t.x i = ((border (fitBorders grid) 10 : Int) : K) →
      ∃ row, reportBody grid fUp fNom fDn t i out = out ++ [some row] ∧
        row.fitted = fNom 9 (t.x i) ∧
        row.fittedUnc = max (fUp 9 (t.x i) - fNom 9 (t.x i)) (fNom 9 (t.x i) - fDn 9 (t.x i)) ∧
        (ratioPoint grid fNom t i).py = some (t.y i / -1)) := by
  subst hm
  have hkw := inWindow_boundary (K := K) grid k (by unfold nFits; omega)
  have hrw := reportWindow_boundary (K := K) grid k hk1 (by omega)
  have hrw10 := reportWindow_boundary (K := K) grid 10 (by omega) (by omega)
  have hratio := ratioFitXsec_of_window grid fNom k _ (by unfold nFits; omega) hkw
  have hratio10 : ratioFitXsec (fitBorders grid) fNom
      (((border (fitBorders grid) 10 : Int) : K)) = -1 :=
    ratioFitXsec_no_window _ fNom _
      (fun j hj => inWindow_outside grid _ (Or.inr (le_refl _)) j hj)
  have hbody : ∀ (j : Nat), j ≤ 10 → ∀ i out,
      t.x i = ((border (fitBorders grid) j : Int) : K) →
      reportWindow (fitBorders grid) (((border (fitBorders grid) j : Int) : K)) = some (j - 1) →
      reportBody grid fUp fNom fDn t i out =
        out ++ [some (reportRow fUp fNom fDn t i (j - 1))] := by
    intro j hj i out hx hwin
    unfold reportBody
    simp only
    have h50 := border_ge_fifty (K := K) grid j hj
    have hnot : ¬ t.x i < 1 / 1000 := by
      rw [hx, not_lt]
      refine le_trans ?_ h50
      norm_num
    rw [if_neg hnot, hx, hwin]
    rfl
  have hband : ∀ i : Nat, i < 190 →
      ((border (fitBorders grid) k : Int) : K) = 100 + (i : K) * 10 →
      (fitBand grid fUp fNom fDn).rye i =
        fdiv (envelope (fUp k) (fNom k) (fDn k) ((border (fitBorders grid) k : Int) : K))
          (fNom k ((border (fitBorders grid) k : Int) : K)) := by
    intro i hi hmi
    have hw2 : inWindow (fitBorders grid) k (100 + (i : K) * 10) = true := by
      rw [← hmi]
      exact hkw
    have h := fitBand_rye grid fUp fNom fDn i k 190 Band.zero hi (by unfold nFits; omega) hw2
    rw [hmi]
    exact h
  refine ⟨hrw, fun i out hx => hbody k (by omega) i out hx hrw, hratio, ?_,
    boundary_on_fine_grid grid k hk1 hk9, hband, hrw10, hratio10, ?_, ?_, ?_, ?_, ?_⟩
  · intro i hx
    simp only [ratioPoint]
    rw [hx, hratio]
  · intro i out hx
    refine ⟨reportRow fUp fNom fDn t i (k - 1), hbody k (by omega) i out hx hrw, hx, rfl, rfl,
      ?_, ?_, ?_, ?_⟩
    · simp only [reportRow]
      rw [hx]
    · simp only [reportRow]
      rw [hx, envelope_eq_max]
    · intro hy
      simp only [reportRow]
      rw [hx]
      unfold fdiv
      rw [if_neg hy]
      rfl
    · intro hye
      simp only [reportRow]
      rw [hx, envelope_eq_max]
      unfold fdiv
      rw [if_neg hye]
      rfl
  · intro i hi hx
    have hnot : ¬ t.x i < 1 / 1000 := by
      rw [hx, not_lt]
      refine le_trans ?_ (border_ge_fifty (K := K) grid k (by omega))
      norm_num
    have hmem := report_contains grid fUp fNom fDn t i (nPoints grid) [] hi hnot
    rw [hx, hrw] at hmem
    exact hmem
  · intro i hx hne
    simp only [ratioPoint]
    rw [hx, hratio]
    unfold fdiv
    rw [if_neg hne, if_neg hne]
    exact ⟨rfl, rfl, rfl⟩
  · intro i hi hmi hne
    rw [hband i hi hmi, envelope_eq_max]
    unfold fdiv
    rw [if_neg hne]
  · intro i out hx
    refine ⟨reportRow fUp fNom fDn t i 9, hbody 10 (by omega) i out hx hrw10, rfl, ?_, ?_⟩
    · simp only [reportRow]
      rw [envelope_eq_max]
    · simp only [ratioPoint]
      rw [hx, hratio10]
      unfold fdiv
      rw [if_neg (by norm_num)]

/-- C10 at grid `C1N2` and a sample of mass `fitBorders[1] = 150`, cross-section 4,
uncertainty 1, with curves that differ from window to window (Up = 2j+3, Nominal = j+1,
Down = 0) : the Reporter row holds the values of window 0 (fitted 1, envelope 2), the
ratio marker and the band hold those of window 1 (4/2 and 3/2). -/
theorem boundary_window_choice_witness :
    (∃ row : Row ℚ,
      reportBody "C1N2" (fun j _ => 2 * (j : ℚ) + 3) (fun j _ => (j : ℚ) + 1) (fun _ _ => 0)
        boundarySample 0 [] = [some row] ∧
      row.fitted = 1 ∧ row.fittedUnc = 2 ∧ row.xsecDiff = some (-75) ∧
      row.uncDiff = some 100) ∧
    (ratioPoint "C1N2" (fun j _ => (j : ℚ) + 1) boundarySample 0).py = some 2 ∧
    (fitBand "C1N2" (fun j _ => 2 * (j : ℚ) + 3) (fun j _ => (j : ℚ) + 1)
      (fun _ _ => 0)).rye 5 = some (3 / 2) := by
  have h := boundary_window_choice (K := ℚ) "C1N2" (fun j _ => 2 * (j : ℚ) + 3)
    (fun j _ => (j : ℚ) + 1) (fun _ _ => 0) boundarySample 1 150 (by norm_num) (by norm_num)
    (by rw [fitBorders_standard "C1N2" (by decide)]; norm_num [border])
  obtain ⟨_, _, _, _, _, _, _, _, hrow, _, hpt, hrye, _⟩ := h
  refine ⟨?_, ?_, ?_⟩
  · obtain ⟨row, hb, _, _, _, hf, hu, hxd, hud⟩ := hrow 0 [] rfl
    refine ⟨row, by simpa using hb, ?_, ?_, ?_, ?_⟩
    · rw [hf]; norm_num
    · rw [hu]; norm_num
    · rw [hxd (by norm_num [boundarySample])]; norm_num [boundarySample]
    · rw [hud (by norm_num [boundarySample])]; norm_num [boundarySample]
  · rw [(hpt 0 rfl (by norm_num)).2.1]
    norm_num [boundarySample]
  · rw [hrye 5 (by norm_num) (by norm_num) (by norm_num)]
    norm_num

/-- C3 : `load_cross_sections(grid, comp, ...)` returns true exactly for the whitelisted
pairs; for every other pair (`N1N2`/`wino` and `SlepSlep`/`wino` among them) it returns
false and leaves `x`, `xe`, `y`, `ye` as they were, and `fit_gaugino` returns at once. -/
theorem load_whitelist (fs : String → Option String) (grid comp : String) (t : Tables ℚ) :
    ((load_cross_sections fs grid comp t).1 = true ↔ specWhitelist grid comp) ∧
    (¬ specWhitelist grid comp → load_cross_sections fs grid comp t = (false, t)) ∧
    (¬ specWhitelist grid comp → fit_gaugino_tables fs grid comp = none) ∧
    load_cross_sections fs "N1N2" "wino" t = (false, t) ∧
    load_cross_sections fs "SlepSlep" "wino" t = (false, t) := by
  have hiff := found_iff grid comp
  refine ⟨?_, ?_, ?_, ?_, ?_⟩
  · simpa only [load_cross_sections] using hiff
  · intro h
    have hf : found grid comp = false := by
      cases hw : found grid comp with
      | false => rfl
      | true => exact absurd (hiff.mp hw) h
    simp only [load_cross_sections, hf, Bool.false_eq_true, if_false]
  · intro h
    have hf : found grid comp = false := by
      cases hw : found grid comp with
      | false => rfl
      | true => exact absurd (hiff.mp hw) h
    simp only [fit_gaugino_tables, load_cross_sections, hf, Bool.not_false, if_true]
  · have hf : found "N1N2" "wino" = false := by decide
    simp only [load_cross_sections, hf, Bool.false_eq_true, if_false]
  · have hf : found "SlepSlep" "wino" = false := by decide
    simp only [load_cross_sections, hf, Bool.false_eq_true, if_false]

/-- C9 : every grid other than `SlepSlep` has the documented boundaries; for grid
`SlepSlep` the first nine windows are 50 GeV wide, but the tenth one is not :
`fitBorders[10]` keeps the value 2000 of the standard list, so
`fitBorders[10] - fitBorders[9] = 1500`. -/
theorem slep_last_window_width :
    (∀ grid, grid ≠ "SlepSlep" →
      fitBorders grid = [100, 150, 200, 300, 400, 600, 800, 1000, 1200, 1500, 2000]) ∧
    fitBorders "SlepSlep" = [50, 100, 150, 200, 250, 300, 350, 400, 450, 500, 2000] ∧
    (∀ j, j < 9 → border (fitBorders "SlepSlep") (j + 1) - border (fitBorders "SlepSlep") j
      = 50) ∧
    border (fitBorders "SlepSlep") 10 - border (fitBorders "SlepSlep") 9 = 1500 := by
  refine ⟨fitBorders_standard, fitBorders_slep, ?_, ?_⟩
  · rw [fitBorders_slep]
    decide
  · rw [fitBorders_slep]
    decide

/-- C7 : the last complete record is lost when nothing follows it.  On the input
`100 5 1\n150 3 0.5` (two complete triples, no final newline) the loader stores the first
triple only and leaves index 1 at zero; with a final newline it stores both. -/
theorem loader_drops_unterminated_record :
    (load_cross_sections (oneFile "100 5 1\n150 3 0.5") "C1N2" "wino" Tables.zero).1 = true ∧
    (load_cross_sections (oneFile "100 5 1\n150 3 0.5") "C1N2" "wino" Tables.zero).2.x 0 = 100 ∧
    (load_cross_sections (oneFile "100 5 1\n150 3 0.5") "C1N2" "wino" Tables.zero).2.y 0 = 5 ∧
    (load_cross_sections (oneFile "100 5 1\n150 3 0.5") "C1N2" "wino" Tables.zero).2.ye 0 = 1 ∧
    (load_cross_sections (oneFile "100 5 1\n150 3 0.5") "C1N2" "wino" Tables.zero).2.x 1 = 0 ∧
    (load_cross_sections (oneFile "100 5 1\n150 3 0.5") "C1N2" "wino" Tables.zero).2.y 1 = 0 ∧
    (load_cross_sections (oneFile "100 5 1\n150 3 0.5") "C1N2" "wino" Tables.zero).2.ye 1 = 0 ∧
    (load_cross_sections (oneFile "100 5 1\n150 3 0.5\n") "C1N2" "wino" Tables.zero).2.x 1 = 150 ∧
    (load_cross_sections (oneFile "100 5 1\n150 3 0.5\n") "C1N2" "wino" Tables.zero).2.y 1 = 3 ∧
    (load_cross_sections (oneFile "100 5 1\n150 3 0.5\n") "C1N2" "wino" Tables.zero).2.ye 1 =
      1 / 2 := by
  have hx0 : (load_cross_sections (oneFile "100 5 1\n150 3 0.5") "C1N2" "wino" Tables.zero).2.x 0
      = Decimal.toRat ⟨false, 100, 0, false, 0⟩ := rfl
  have hy0 : (load_cross_sections (oneFile "100 5 1\n150 3 0.5") "C1N2" "wino" Tables.zero).2.y 0
      = Decimal.toRat ⟨false, 5, 0, false, 0⟩ := rfl
  have hye0 : (load_cross_sections (oneFile "100 5 1\n150 3 0.5") "C1N2" "wino" Tables.zero).2.ye 0
      = Decimal.toRat ⟨false, 1, 0, false, 0⟩ := rfl
  have hx1 : (load_cross_sections (oneFile "100 5 1\n150 3 0.5\n") "C1N2" "wino" Tables.zero).2.x 1
      = Decimal.toRat ⟨false, 150, 0, false, 0⟩ := rfl
  have hy1 : (load_cross_sections (oneFile "100 5 1\n150 3 0.5\n") "C1N2" "wino" Tables.zero).2.y 1
      = Decimal.toRat ⟨false, 3, 0, false, 0⟩ := rfl
  have hye1 : (load_cross_sections (oneFile "100 5 1\n150 3 0.5\n") "C1N2" "wino" Tables.zero).2.ye 1
      = Decimal.toRat ⟨false, 5, 1, false, 0⟩ := rfl
  refine ⟨rfl, ?_, ?_, ?_, rfl, rfl, rfl, ?_, ?_, ?_⟩
  · rw [hx0]; norm_num [Decimal.toRat]
  · rw [hy0]; norm_num [Decimal.toRat]
  · rw [hye0]; norm_num [Decimal.toRat]
  · rw [hx1]; norm_num [Decimal.toRat]
  · rw [hy1]; norm_num [Decimal.toRat]
  · rw [hye1]; norm_num [Decimal.toRat]

/-- C8, as stated, fails : on the input `100 0 1\n` for `C1N2`/`wino` (cross-section 0 at
sample 0) the run is not stopped; the expansion stores `yUp[0] = 1`, `yDn[0] = -1` and
the non-finite results of `1/0` in `yeUp[0]` and `yeDn[0]`. -/
theorem zero_nominal_not_detected :
    ∃ t : Tables ℚ, fit_gaugino_tables (oneFile "100 0 1\n") "C1N2" "wino" = some t ∧
      t.y 0 = 0 ∧ t.ye 0 = 1 ∧ t.yUp 0 = 1 ∧ t.yDn 0 = -1 ∧
      t.yeUp 0 = none ∧ t.yeDn 0 = none := by
  refine ⟨_, fit_gaugino_tables_of_found _ _ _ (by decide), ?_⟩
  have hy : (load_cross_sections (oneFile "100 0 1\n") "C1N2" "wino" Tables.zero).2.y 0
      = Decimal.toRat ⟨false, 0, 0, false, 0⟩ := rfl
  have hye : (load_cross_sections (oneFile "100 0 1\n") "C1N2" "wino" Tables.zero).2.ye 0
      = Decimal.toRat ⟨false, 1, 0, false, 0⟩ := rfl
  have hy0 : (load_cross_sections (oneFile "100 0 1\n") "C1N2" "wino" Tables.zero).2.y 0 = 0 := by
    rw [hy]; norm_num [Decimal.toRat]
  have hye1 : (load_cross_sections (oneFile "100 0 1\n") "C1N2" "wino" Tables.zero).2.ye 0 = 1 := by
    rw [hye]; norm_num [Decimal.toRat]
  obtain ⟨h1, h2, h3, h4, h5⟩ := expand_zero_nominal "C1N2"
    (load_cross_sections (oneFile "100 0 1\n") "C1N2" "wino" Tables.zero).2 0 (by decide) hy0
  have hu := (expand_at "C1N2"
    (load_cross_sections (oneFile "100 0 1\n") "C1N2" "wino" Tables.zero).2 0 (by decide)).2.1
  have hu1 : (expandUncertainties "C1N2"
      (load_cross_sections (oneFile "100 0 1\n") "C1N2" "wino" Tables.zero).2).ye 0 = 1 := by
    rw [hu]
    unfold absUnc
    rw [if_neg (by decide), hye1]
  refine ⟨h1, hu1, ?_, ?_, h4, h5⟩
  · rw [h2, hu1]
  · rw [h3, hu1]

/-- C8, amended : for every sample `i < nPoints` whose loaded cross-section `y[i]` is zero
(a zero-initialised slot included), the run of a whitelisted pair raises no error : the
expansion goes through, with `yUp[i] = ye[i]`, `yDn[i] = -ye[i]`, and `yeUp[i]`, `yeDn[i]`
holding the non-finite result of the unguarded division by zero. -/
theorem zero_nominal_expansion (fs : String → Option String) (grid comp : String) (i : Nat)
    (hw : specWhitelist grid comp) (hi : i < nPoints grid)
    (hy : (load_cross_sections fs grid comp Tables.zero).2.y i = 0) :
    ∃ t : Tables ℚ, fit_gaugino_tables fs grid comp = some t ∧
      t.y i = 0 ∧ t.yUp i = t.ye i ∧ t.yDn i = -t.ye i ∧
      t.yeUp i = none ∧ t.yeDn i = none :=
  ⟨_, fit_gaugino_tables_of_found fs grid comp ((found_iff grid comp).mpr hw),
    expand_zero_nominal grid _ i hi hy⟩

/-- C8 amended, on an empty input file for `C1N2`/`wino` : slot 3 stays zero-initialised
and its pseudo-uncertainties are non-finite. -/
theorem zero_nominal_expansion_witness :
    ∃ t : Tables ℚ, fit_gaugino_tables (oneFile "") "C1N2" "wino" = some t ∧
      t.y 3 = 0 ∧ t.yUp 3 = t.ye 3 ∧ t.yDn 3 = -t.ye 3 ∧
      t.yeUp 3 = none ∧ t.yeDn 3 = none :=
  zero_nominal_expansion (oneFile "") "C1N2" "wino" 3
    ((found_iff "C1N2" "wino").mp (by decide)) (by decide) rfl

end FitGaugino
